/-
Verification of the panorama / cubemap / perspective-projection core of
StreetViewImageDownloader.  The C++ sources `src/cpp/cubemap.cpp`,
`src/gui/cpp/cubemap.cpp` and `src/api/cpp/projection.cpp` are shallowly
embedded over exact arithmetic: C `double` values become `ℚ` (or `ℝ` where
they are compared against exact transcendental functions), C `int` values
become `ℤ` or `ℕ`, and the pixel-write loops become explicit write lists.
-/
import Mathlib

open Real

namespace StreetView

/-- Cube faces, in the order of the C++ `enum Faces {FRONT, BACK, TOP, BOTTOM, RIGHT, LEFT}`. -/
inductive Faces where
  | FRONT
  | BACK
  | TOP
  | BOTTOM
  | RIGHT
  | LEFT
deriving DecidableEq

/-- Numeric index of a face in the C++ enumeration. -/
def faceIdx : Faces → ℤ
  | .FRONT => 0
  | .BACK => 1
  | .TOP => 2
  | .BOTTOM => 3
  | .RIGHT => 4
  | .LEFT => 5

/-- The `Coordinates` struct of `cubemap.cpp`: a 3D direction vector. -/
structure Coordinates where
  x : ℚ
  y : ℚ
  z : ℚ
deriving DecidableEq

/-- Shallow embedding of `Coordinates::set` (identical in `src/cpp/cubemap.cpp`
lines 46-66 and `src/gui/cpp/cubemap.cpp` lines 46-66): maps an atlas pixel
`(i, j)` and a face to a 3D direction. -/
def Coordinates.set (i j : ℤ) (face : Faces) (edge : ℚ) : Coordinates :=
  match face with
  | .FRONT => ⟨1, (i * 2 : ℚ) / edge - 5, 3 - (j * 2 : ℚ) / edge⟩
  | .BACK => ⟨-1, 1 - (i * 2 : ℚ) / edge, 3 - (j * 2 : ℚ) / edge⟩
  | .TOP => ⟨5 - (j * 2 : ℚ) / edge, (i * 2 : ℚ) / edge - 5, -1⟩
  | .BOTTOM => ⟨(j * 2 : ℚ) / edge - 1, (i * 2 : ℚ) / edge - 5, 1⟩
  | .RIGHT => ⟨7 - (i * 2 : ℚ) / edge, 1, 3 - (j * 2 : ℚ) / edge⟩
  | .LEFT => ⟨(i * 2 : ℚ) / edge - 3, -1, 3 - (j * 2 : ℚ) / edge⟩

/-- The double-valued `clip` of `projection.cpp`: `std::min(std::max(value, min), max)`. -/
def clipD (value lo hi : ℚ) : ℚ := min (max value lo) hi

/-- The int-valued `clip` of `cubemap.cpp`: `std::min(std::max(value, min), max)`. -/
def clipI (value lo hi : ℤ) : ℤ := min (max value lo) hi

/-- C `round`: round half away from zero (exact on the rationals). -/
def cround (q : ℚ) : ℤ := if 0 ≤ q then ⌊q + 1 / 2⌋ else ⌈q - 1 / 2⌉

/-- Face chosen by `set_output_pixel` (`projection.cpp` lines 104-114) for a
direction vector: dominant-axis test in the order X, Y, Z with strict
comparisons, sign of the component picking the face variant. -/
def set_output_pixel_face (d : Coordinates) : Faces :=
  if |d.x| > |d.y| ∧ |d.x| > |d.z| then (if d.x > 0 then .RIGHT else .LEFT)
  else if |d.y| > |d.x| ∧ |d.y| > |d.z| then (if d.y > 0 then .TOP else .BOTTOM)
  else (if d.z > 0 then .FRONT else .BACK)

/-- The `abs_max` value set alongside the face in `set_output_pixel`. -/
def set_output_pixel_absmax (d : Coordinates) : ℚ :=
  if |d.x| > |d.y| ∧ |d.x| > |d.z| then |d.x|
  else if |d.y| > |d.x| ∧ |d.y| > |d.z| then |d.y|
  else |d.z|

/-- The `half_face_length` of `set_output_pixel` (C integer division). -/
def half_len (face_length : ℤ) : ℤ := face_length / 2

/-- One component of the direction scaled by `lambda = half_face_length / abs_max`
onto the face plane (`x1 *= lambda` etc. in `set_output_pixel`). -/
def proj_scaled (c : ℚ) (d : Coordinates) (face_length : ℤ) : ℚ :=
  c * ((half_len face_length : ℤ) : ℚ) / set_output_pixel_absmax d

/-- Face-local texel `(x2, y2)` computed by `set_output_pixel`
(`projection.cpp` lines 115-151) for a direction vector: the direction is
scaled by `half_face_length / abs_max` onto the face plane, then clipped,
rounded and offset per face. -/
def set_output_pixel_texel (d : Coordinates) (fl : ℤ) : Faces × ℤ × ℤ :=
  match set_output_pixel_face d with
  | .FRONT =>
      (.FRONT,
        cround (clipD (proj_scaled d.x d fl) (-(half_len fl)) (half_len fl - 1)) + half_len fl,
        cround (clipD (proj_scaled d.y d fl) (-(half_len fl)) (half_len fl - 1)) + half_len fl)
  | .BACK =>
      (.BACK,
        half_len fl - cround (clipD (proj_scaled d.x d fl) (-(half_len fl) + 1) (half_len fl)),
        cround (clipD (proj_scaled d.y d fl) (-(half_len fl)) (half_len fl - 1)) + half_len fl)
  | .TOP =>
      (.TOP,
        cround (clipD (proj_scaled d.x d fl) (-(half_len fl)) (half_len fl - 1)) + half_len fl,
        half_len fl - cround (clipD (proj_scaled d.z d fl) (-(half_len fl) + 1) (half_len fl)))
  | .BOTTOM =>
      (.BOTTOM,
        cround (clipD (proj_scaled d.x d fl) (-(half_len fl)) (half_len fl - 1)) + half_len fl,
        cround (clipD (proj_scaled d.z d fl) (-(half_len fl)) (half_len fl - 1)) + half_len fl)
  | .RIGHT =>
      (.RIGHT,
        half_len fl - cround (clipD (proj_scaled d.z d fl) (-(half_len fl) + 1) (half_len fl)),
        cround (clipD (proj_scaled d.y d fl) (-(half_len fl)) (half_len fl - 1)) + half_len fl)
  | .LEFT =>
      (.LEFT,
        cround (clipD (proj_scaled d.z d fl) (-(half_len fl)) (half_len fl - 1)) + half_len fl,
        cround (clipD (proj_scaled d.y d fl) (-(half_len fl)) (half_len fl - 1)) + half_len fl)

/-- Byte offset of the output pixel written by `set_output_pixel`
(`projection.cpp` line 152): `(y * width + (width - x)) * 3`. -/
def output_index (x y width : ℤ) : ℤ := (y * width + (width - x)) * 3

/-- Byte offset read from the cubemap by `set_output_pixel`
(`projection.cpp` lines 154-155). -/
def cubemap_index (face : Faces) (x2 y2 face_length : ℤ) : ℤ :=
  (faceIdx face * face_length * face_length + y2 * face_length + x2) * 3

/-- Per-face axis table exactly as written in the specification (section 4.2):
a definition taken from the spec's words, to be compared with the embedding of
`Coordinates::set`. -/
def specAxisTable (i j : ℤ) (face : Faces) (edge : ℚ) : ℚ × ℚ × ℚ :=
  match face with
  | .FRONT => (1, 2 * i / edge - 5, 3 - 2 * j / edge)
  | .BACK => (-1, 1 - 2 * i / edge, 3 - 2 * j / edge)
  | .TOP => (5 - 2 * j / edge, 2 * i / edge - 5, -1)
  | .BOTTOM => (2 * j / edge - 1, 2 * i / edge - 5, 1)
  | .RIGHT => (7 - 2 * i / edge, 1, 3 - 2 * j / edge)
  | .LEFT => (2 * i / edge - 3, -1, 3 - 2 * j / edge)

/-- Face selection exactly as described by the specification (section 4.2):
first axis in the priority order X, Y, Z whose magnitude strictly exceeds the
other two wins; exact ties fall through to the Z (FRONT/BACK) branch; the
sign of the component picks the variant. -/
def specFaceSelect (x y z : ℚ) : Faces :=
  if |x| > |y| ∧ |x| > |z| then (if 0 < x then .RIGHT else .LEFT)
  else if |y| > |x| ∧ |y| > |z| then (if 0 < y then .TOP else .BOTTOM)
  else (if 0 < z then .FRONT else .BACK)

/-- C `%` on `int`, which truncates toward zero. -/
def cmod (a b : ℤ) : ℤ := Int.tmod a b

/-- The four neighbour texel coordinates fetched by the bilinear sampler in
`set_pixel_colour` (`src/gui/cpp/cubemap.cpp` lines 107-110, identically
`src/cpp/cubemap.cpp` lines 111-114): horizontal coordinate taken modulo the
image width, vertical coordinate clipped to `[0, height-1]`. -/
def sample_coords (width height ui vi : ℤ) :
    (ℤ × ℤ) × (ℤ × ℤ) × (ℤ × ℤ) × (ℤ × ℤ) :=
  ((cmod ui width, clipI vi 0 (height - 1)),
   (cmod (ui + 1) width, clipI vi 0 (height - 1)),
   (cmod ui width, clipI (vi + 1) 0 (height - 1)),
   (cmod (ui + 1) width, clipI (vi + 1) 0 (height - 1)))

/-- Normalized horizontal offset `x1` for output column `x`
(`projection.cpp` line 185). -/
def x1val (output_width : ℕ) (fov_constant : ℚ) (x : ℕ) : ℚ :=
  ((x : ℚ) * 2 / output_width - 1) / fov_constant

/-- Normalized vertical offset `y1` for output row `y`
(`projection.cpp` line 179). -/
def y1val (output_height : ℕ) (fov_constant : ℚ) (y : ℕ) : ℚ :=
  ((y : ℚ) * 2 / output_height - 1) / fov_constant

/-- Direction vector held by `project` (`projection.cpp` lines 178-192) after
the incremental update for column `x` of row `y`: the row seeds the vector
from matrix columns 1 and 2, then each column adds `(x1 - prev_x)` times
matrix column 0. -/
def project_direction (m : Fin 3 → Fin 3 → ℚ) (w h : ℕ) (fc : ℚ) (y : ℕ) :
    ℕ → Fin 3 → ℚ
  | 0, r => (y1val h fc y * m r 1 - m r 2) + (x1val w fc 0 - 0) * m r 0
  | x + 1, r => project_direction m w h fc y x r + (x1val w fc (x + 1) - x1val w fc x) * m r 0

/-- Base face for atlas column `x` (the `switch (x / edge_length)` in
`set_cubemap`). -/
def column_face (e x : ℕ) : Faces :=
  if x / e = 0 then .BACK else if x / e = 1 then .LEFT
  else if x / e = 2 then .FRONT else .RIGHT

/-- The `start` value of the inner row loop of `set_cubemap` for column `x`. -/
def col_start (e x : ℕ) : ℕ := if x / e = 2 then 0 else e

/-- The `stop` value of the inner row loop of `set_cubemap` for column `x`. -/
def col_stop (e x : ℕ) : ℕ := if x / e = 2 then 3 * e else 2 * e

/-- Face actually written at row `y` of a column with base face `base`:
the BOTTOM/TOP band test of `set_cubemap`. -/
def band_face (e y : ℕ) (base : Faces) : Faces :=
  if y < e then .BOTTOM else if 2 * e ≤ y then .TOP else base

/-- Byte offset into the face-major output atlas computed by the
`switch (face2)` of `set_cubemap` for atlas pixel `(x, y)` carrying face `f`. -/
def write_index (e : ℕ) (f : Faces) (x y : ℕ) : ℤ :=
  match f with
  | .FRONT => (((y : ℤ) - e) * e + x - 2 * e) * 3
  | .BACK => ((e : ℤ) * e + ((y : ℤ) - e) * e + x) * 3
  | .TOP => (2 * (e : ℤ) * e + ((y : ℤ) - 2 * e) * e + x - 2 * e) * 3
  | .BOTTOM => (3 * (e : ℤ) * e + (y : ℤ) * e + x - 2 * e) * 3
  | .RIGHT => (4 * (e : ℤ) * e + ((y : ℤ) - e) * e + x - 3 * e) * 3
  | .LEFT => (5 * (e : ℤ) * e + ((y : ℤ) - e) * e + x - e) * 3

/-- A single three-byte pixel write performed by `set_cubemap`: the atlas
pixel `(x, y)` it was sampled for, the face it belongs to, and the byte
offset in the output buffer. -/
structure AtlasWrite where
  x : ℕ
  y : ℕ
  face : Faces
  index : ℤ
deriving DecidableEq

/-- The write performed by one inner-loop iteration of `set_cubemap`. -/
def mk_write (e x y : ℕ) : AtlasWrite :=
  ⟨x, y, band_face e y (column_face e x), write_index e (band_face e y (column_face e x)) x y⟩

/-- All writes of one column of `set_cubemap` (rows `start` to `stop - 1`). -/
def column_writes (e x : ℕ) : List AtlasWrite :=
  (List.range' (col_start e x) (col_stop e x - col_start e x)).map (mk_write e x)

/-- Writes of `set_cubemap` from column `x0` on, with the given remaining
column count, observing the cancellation flag at the head of each column
iteration (`src/gui/cpp/cubemap.cpp` lines 125-129).  `cancel x` is the value
the flag is observed to have at the check of column `x`. -/
def writes_from (e : ℕ) (cancel : ℕ → Bool) : ℕ → ℕ → List AtlasWrite
  | _, 0 => []
  | x0, fuel + 1 =>
      if cancel x0 then [] else column_writes e x0 ++ writes_from e cancel (x0 + 1) fuel

/-- All pixel writes of `set_cubemap` on a panorama of width `4 * e`.
The `src/cpp` variant takes no flag and corresponds to `cancel = fun _ => false`. -/
def set_cubemap_writes (e : ℕ) (cancel : ℕ → Bool) : List AtlasWrite :=
  writes_from e cancel 0 (4 * e)

/-- The face (if any) that `set_cubemap` samples into atlas pixel `(x, y)`:
`none` when the pixel is outside every iterated band. -/
def atlas_face (e x y : ℕ) : Option Faces :=
  if x < 4 * e ∧ col_start e x ≤ y ∧ y < col_stop e x
  then some (band_face e y (column_face e x)) else none

/-- Face-local coordinates under which `set_cubemap` stores atlas pixel
`(i, j)` of face `f` (read off the per-face index formulas). -/
def builder_local (f : Faces) (e i j : ℤ) : ℤ × ℤ :=
  match f with
  | .FRONT => (i - 2 * e, j - e)
  | .BACK => (i, j - e)
  | .TOP => (i - 2 * e, j - 2 * e)
  | .BOTTOM => (i - 2 * e, j)
  | .RIGHT => (i - 3 * e, j - e)
  | .LEFT => (i - e, j - e)

/-- Atlas cross coordinates of face `f`'s face-local pixel `(a, b)` (inverse
of `builder_local`). -/
def atlas_coords (f : Faces) (e a b : ℤ) : ℤ × ℤ :=
  match f with
  | .FRONT => (2 * e + a, e + b)
  | .BACK => (a, e + b)
  | .TOP => (2 * e + a, 2 * e + b)
  | .BOTTOM => (2 * e + a, b)
  | .RIGHT => (3 * e + a, e + b)
  | .LEFT => (e + a, e + b)

/-- The face actually selected by the Projector for a direction produced by
the Builder for face `f`: a fixed permutation, not the identity. -/
def round_trip_face : Faces → Faces
  | .FRONT => .RIGHT
  | .BACK => .LEFT
  | .TOP => .BACK
  | .BOTTOM => .FRONT
  | .RIGHT => .TOP
  | .LEFT => .BOTTOM

/-- The face-local texel the Projector computes for the Builder direction of
face `f`'s local pixel `(a, b)`: a transposition/mirror, not the identity. -/
def round_trip_texel (f : Faces) (e a b : ℤ) : ℤ × ℤ :=
  match f with
  | .FRONT => (b, a)
  | .BACK => (e - b, e - a)
  | .TOP => (b, a)
  | .BOTTOM => (b, a)
  | .RIGHT => (e - a, b)
  | .LEFT => (a, e - b)

/-- The `atan` polynomial constant `a1` of `cubemap.cpp`. -/
def a1 : ℚ := 99997726 / 100000000

/-- The `atan` polynomial constant `a3` of `cubemap.cpp`. -/
def a3 : ℚ := -33262347 / 100000000

/-- The `atan` polynomial constant `a5` of `cubemap.cpp`. -/
def a5 : ℚ := 19354346 / 100000000

/-- The `atan` polynomial constant `a7` of `cubemap.cpp`. -/
def a7 : ℚ := -11643287 / 100000000

/-- The `atan` polynomial constant `a9` of `cubemap.cpp`. -/
def a9 : ℚ := 5265332 / 100000000

/-- The `atan` polynomial constant `a11` of `cubemap.cpp`. -/
def a11 : ℚ := -1172120 / 100000000

/-- Shallow embedding of `atan_approx` (identical in both cubemap.cpp files):
the odd degree-11 polynomial with `x_sq = x * x` factored as in the source. -/
def atan_approx (x : ℚ) : ℚ :=
  x * (a1 + x * x * (a3 + x * x * (a5 + x * x * (a7 + x * x * (a9 + x * x * a11)))))

/-- The `atan_input` of `atan2_approx`: `(swap ? x : y) / (swap ? y : x)`
with `swap = |x| < |y|`. -/
def atan2_input (y x : ℚ) : ℚ := if |x| < |y| then x / y else y / x

/-- The `res` value of `atan2_approx` after the swap adjustment
(`res = swap ? (atan_input >= 0 ? pi/2 : -pi/2) - res : res`). -/
noncomputable def atan2_res (y x : ℚ) : ℝ :=
  if |x| < |y| then
    (if 0 ≤ atan2_input y x then (π / 2 : ℝ) else -(π / 2))
      - ((atan_approx (atan2_input y x) : ℚ) : ℝ)
  else ((atan_approx (atan2_input y x) : ℚ) : ℝ)

/-- The shared tail of both `atan2_approx` variants: quadrant adjustment by
the signs of `x` and `y` (`return x >= 0 ? res : res + (y >= 0 ? pi : -pi)`). -/
noncomputable def atan2_core (y x : ℚ) : ℝ :=
  if 0 ≤ x then atan2_res y x else atan2_res y x + (if 0 ≤ y then π else -π)

/-- Shallow embedding of `atan2_approx` from `src/cpp/cubemap.cpp` (the api
build): only the exact pair `(0, 0)` is special-cased. -/
noncomputable def atan2_approx_api (y x : ℚ) : ℝ :=
  if x = 0 ∧ y = 0 then 0 else atan2_core y x

/-- Shallow embedding of `atan2_approx` from `src/gui/cpp/cubemap.cpp`: the
whole line `x = 0` is special-cased. -/
noncomputable def atan2_approx_gui (y x : ℚ) : ℝ :=
  if x = 0 then (if y = 0 then 0 else if y < 0 then -(π / 2) else π / 2)
  else atan2_core y x

/-- The exact mathematical `atan2`, the reference the spec compares against. -/
noncomputable def atan2R (y x : ℝ) : ℝ :=
  if 0 < x then arctan (y / x)
  else if x < 0 then (if 0 ≤ y then arctan (y / x) + π else arctan (y / x) - π)
  else if 0 < y then π / 2 else if y < 0 then -(π / 2) else 0

/-- Partial sum of the arctan alternating series, over `ℚ`. -/
def Sq (n : ℕ) (t : ℚ) : ℚ :=
  ∑ k in Finset.range n, (-1) ^ k * t ^ (2 * k + 1) / (2 * k + 1)

/-- Partial sum of the arctan alternating series, over `ℝ`. -/
noncomputable def SR (n : ℕ) (t : ℝ) : ℝ :=
  ∑ k in Finset.range n, (-1) ^ k * t ^ (2 * k + 1) / (2 * k + 1)

/-- The rational certificate comparing the polynomial against the series
partial sums that bracket `arctan`. -/
def checkP (t : ℚ) : Prop :=
  Sq 13 t - 1 / 100 ≤ atan_approx t ∧ atan_approx t ≤ Sq 12 t + 1 / 100

/-- C5: for every face and integer pixel coordinates, `Coordinates::set`
returns exactly the per-face affine values of the spec's axis table, with the
constants −5, 3, 7, −3 reproduced exactly. -/
theorem C5_face_pixel_to_direction_table (i j : ℤ) (f : Faces) (edge : ℚ) :
    ((Coordinates.set i j f edge).x, (Coordinates.set i j f edge).y,
      (Coordinates.set i j f edge).z) = specAxisTable i j f edge := by
  cases f <;> simp [Coordinates.set, specAxisTable] <;> constructor <;> ring

/-- C4: for every nonzero direction, `set_output_pixel` selects the face by
the dominant-axis rule of the spec: axes checked in the fixed order X, Y, Z,
the first whose magnitude strictly exceeds both others wins, exact ties fall
through to the Z (FRONT/BACK) branch, and the sign of the dominant component
selects the positive/negative face variant. -/
theorem C4_dominant_axis_face_selection (x y z : ℚ) (hnz : ¬(x = 0 ∧ y = 0 ∧ z = 0)) :
    set_output_pixel_face ⟨x, y, z⟩ = specFaceSelect x y z ∧
    ((|x| > |y| ∧ |x| > |z|) →
      set_output_pixel_face ⟨x, y, z⟩ = (if 0 < x then Faces.RIGHT else Faces.LEFT)) ∧
    (¬(|x| > |y| ∧ |x| > |z|) → (|y| > |x| ∧ |y| > |z|) →
      set_output_pixel_face ⟨x, y, z⟩ = (if 0 < y then Faces.TOP else Faces.BOTTOM)) ∧
    (¬(|x| > |y| ∧ |x| > |z|) → ¬(|y| > |x| ∧ |y| > |z|) →
      set_output_pixel_face ⟨x, y, z⟩ = (if 0 < z then Faces.FRONT else Faces.BACK)) := by
  refine ⟨?_, ?_, ?_, ?_⟩
  · simp only [set_output_pixel_face, specFaceSelect]
  · intro h
    simp only [set_output_pixel_face, if_pos h]
  · intro h1 h2
    simp only [set_output_pixel_face, if_neg h1, if_pos h2]
  · intro h1 h2
    simp only [set_output_pixel_face, if_neg h1, if_neg h2]

/-- Witness for C4 at the concrete nonzero direction (3, -2, 1). -/
theorem C4_dominant_axis_face_selection_witness :
    ¬((3 : ℚ) = 0 ∧ (-2 : ℚ) = 0 ∧ (1 : ℚ) = 0) ∧
    set_output_pixel_face ⟨3, -2, 1⟩ = specFaceSelect 3 (-2) 1 := by
  refine ⟨by decide, ?_⟩
  exact (C4_dominant_axis_face_selection 3 (-2) 1 (by decide)).1

/-- C9: the bilinear fetches wrap horizontally modulo the width and clamp
vertically, so sampling at `u = width` fetches the same four texels as
`u = 0`, and sampling at `v = height` fetches the same four texels as
`v = height - 1`. -/
theorem C9_sampler_wrap_and_clamp (width height : ℤ) (hw : 1 ≤ width) (hh : 1 ≤ height) :
    (∀ vi : ℤ, sample_coords width height width vi = sample_coords width height 0 vi) ∧
    (∀ ui : ℤ, sample_coords width height ui height = sample_coords width height ui (height - 1)) := by
  have hmod : ∀ a : ℤ, 0 ≤ a → cmod a width = a % width := fun a ha =>
    Int.tmod_eq_emod ha (by omega)
  constructor
  · intro vi
    simp only [sample_coords]
    rw [hmod width (by omega), hmod 0 (by omega), hmod (width + 1) (by omega),
      hmod (0 + 1) (by omega)]
    have h1 : width % width = 0 % width := by
      rw [Int.emod_self, Int.zero_emod]
    have h2 : (width + 1) % width = (0 + 1) % width := by
      rw [show width + 1 = 1 + width * 1 by ring, Int.add_mul_emod_self_left]
      norm_num
    rw [h1, h2]
  · intro ui
    simp only [sample_coords, clipI]
    have h1 : min (max height 0) (height - 1) = min (max (height - 1) 0) (height - 1) := by omega
    have h2 : min (max (height + 1) 0) (height - 1)
        = min (max (height - 1 + 1) 0) (height - 1) := by omega
    rw [h1, h2]

/-- Witness for C9 at width 4, height 3, evaluated at `vi = 1` and `ui = 2`. -/
theorem C9_sampler_wrap_and_clamp_witness :
    (1 : ℤ) ≤ 4 ∧ (1 : ℤ) ≤ 3 ∧
    sample_coords 4 3 4 1 = sample_coords 4 3 0 1 ∧
    sample_coords 4 3 2 3 = sample_coords 4 3 2 (3 - 1) := by
  refine ⟨by decide, by decide, ?_, ?_⟩
  · exact (C9_sampler_wrap_and_clamp 4 3 (by decide) (by decide)).1 1
  · exact (C9_sampler_wrap_and_clamp 4 3 (by decide) (by decide)).2 2

/-- C2, counterexample to the middle conjunct: with output width 2 and height
2 the byte offset of column 0 of row 1, namely `(1 * 2 + 0) * 3 = 6`, is
written (by the pixel computed for `x = 0, y = 0`), so it is not the case
that the byte offsets of column 0 of every output row are never written. -/
theorem C2_counterexample :
    ¬ (∀ x y row : ℤ, 0 ≤ x → x < 2 → 0 ≤ y → y < 2 → 0 ≤ row → row < 2 →
        output_index x y 2 ≠ (row * 2 + 0) * 3) := by
  intro hclaim
  exact hclaim 0 0 1 (by decide) (by decide) (by decide) (by decide) (by decide) (by decide)
    (by decide)

/-- C2, amended: the pixel computed for column `x = 0` of row `y` is written
at byte offset `(y*w + w)*3 = ((y+1)*w)*3`; the per-row column offset
`w - x` ranges over `1..w` and never 0, so the three bytes of column 0 of row
0 (offsets 0..2) are never written — but the byte offsets of column 0 of rows
`1..h-1` are written, each by the `x = 0` pixel of the previous row; and for
the last row `y = h-1` the three bytes written at offsets `h*w*3 .. h*w*3+2`
lie outside a `w*h*3`-byte output buffer. -/
theorem C2_output_offset_bug (w h x y : ℤ) (hw : 1 ≤ w) (hh : 1 ≤ h)
    (hx : 0 ≤ x) (hx2 : x < w) (hy : 0 ≤ y) (hy2 : y < h) :
    output_index 0 y w = ((y + 1) * w) * 3 ∧
    (1 ≤ w - x ∧ w - x ≤ w) ∧
    3 ≤ output_index x y w ∧
    (1 ≤ y → output_index 0 (y - 1) w = (y * w + 0) * 3) ∧
    output_index 0 (h - 1) w = h * w * 3 ∧ w * h * 3 ≤ h * w * 3 := by
  have hyw : 0 ≤ y * w := mul_nonneg hy (by omega)
  refine ⟨by unfold output_index; ring, ⟨by omega, by omega⟩, ?_, ?_, by unfold output_index; ring,
    by nlinarith⟩
  · unfold output_index
    nlinarith
  · intro hy1
    unfold output_index
    ring

/-- Witness for C2's amended theorem at `w = 2, h = 2, x = 1, y = 1`. -/
theorem C2_output_offset_bug_witness :
    (1 : ℤ) ≤ 2 ∧
    (output_index 0 1 2 = ((1 + 1) * 2) * 3 ∧
      ((1 : ℤ) ≤ 2 - 1 ∧ (2 : ℤ) - 1 ≤ 2) ∧
      3 ≤ output_index 1 1 2 ∧
      ((1 : ℤ) ≤ 1 → output_index 0 (1 - 1) 2 = (1 * 2 + 0) * 3) ∧
      output_index 0 (2 - 1) 2 = 2 * 2 * 3 ∧ (2 : ℤ) * 2 * 3 ≤ 2 * 2 * 3) := by
  exact ⟨by decide,
    C2_output_offset_bug 2 2 1 1 (by decide) (by decide) (by decide) (by decide) (by decide)
      (by decide)⟩

/-- C10: in exact arithmetic the incrementally updated direction for output
pixel `(x, y)` equals the directly computed direction
`x1 * (matrix column 0) + y1 * (matrix column 1) - (matrix column 2)`. -/
theorem C10_incremental_direction_exact (m : Fin 3 → Fin 3 → ℚ) (w h : ℕ) (fc : ℚ)
    (y x : ℕ) (r : Fin 3) :
    project_direction m w h fc y x r
      = x1val w fc x * m r 0 + y1val h fc y * m r 1 - m r 2 := by
  induction x with
  | zero => simp only [project_direction]; ring
  | succ n ih => simp only [project_direction, ih]; ring

/-- Every write emitted by `writes_from` has its column in the traversed
range and the flag observed false at its own column and all before it. -/
theorem writes_from_flag_false (e : ℕ) (cancel : ℕ → Bool) :
    ∀ fuel x0 w, w ∈ writes_from e cancel x0 fuel →
      x0 ≤ w.x ∧ ∀ j, x0 ≤ j → j ≤ w.x → cancel j = false := by
  intro fuel
  induction fuel with
  | zero => intro x0 w hw; simp [writes_from] at hw
  | succ n ih =>
    intro x0 w hw
    simp only [writes_from] at hw
    by_cases hc : cancel x0
    · simp [hc] at hw
    · rw [if_neg hc, List.mem_append] at hw
      rcases hw with hw | hw
      · rcases List.mem_map.1 hw with ⟨y, _, rfl⟩
        exact ⟨le_refl _, fun j h1 h2 => by
          have : j = x0 := le_antisymm h2 h1
          simpa [this] using hc⟩
      · rcases ih (x0 + 1) w hw with ⟨h1, h2⟩
        refine ⟨by omega, fun j hj1 hj2 => ?_⟩
        rcases Nat.eq_or_lt_of_le hj1 with rfl | hj3
        · simpa using hc
        · exact h2 j (by omega) hj2

/-- C7: if the cancellation flag is observed true at the start of the outer
iteration of column `k`, `set_cubemap` writes nothing from column `k` on
(every emitted write comes from an earlier column); in particular if the
flag is already set at the very first check, no output byte is written at
all. -/
theorem C7_cancellation (e k : ℕ) (cancel : ℕ → Bool) (hk : cancel k = true) :
    (∀ w ∈ set_cubemap_writes e cancel, w.x < k) ∧
    (k = 0 → set_cubemap_writes e cancel = []) := by
  have main : ∀ w ∈ set_cubemap_writes e cancel, w.x < k := by
    intro w hw
    rcases writes_from_flag_false e cancel (4 * e) 0 w hw with ⟨-, h2⟩
    by_contra hlt
    have : cancel k = false := h2 k (Nat.zero_le k) (by omega)
    rw [this] at hk
    exact Bool.false_ne_true hk
  refine ⟨main, fun hk0 => ?_⟩
  subst hk0
  rcases hn : set_cubemap_writes e cancel with _ | ⟨w, l⟩
  · rfl
  · have := main w (by rw [hn]; exact List.mem_cons_self w l)
    omega

/-- Witness for C7 with edge length 1 and the flag observed true at the
check of column 1: all writes come from column 0. -/
theorem C7_cancellation_witness :
    ((fun x => decide (x = 1)) 1 = true) ∧
    (∀ w ∈ set_cubemap_writes 1 (fun x => decide (x = 1)), w.x < 1) := by
  exact ⟨by decide, (C7_cancellation 1 1 (fun x => decide (x = 1)) (by decide)).1⟩

/-- Membership in the writes of one column. -/
theorem mem_column_writes (e x : ℕ) (w : AtlasWrite) :
    w ∈ column_writes e x ↔
      ∃ y, col_start e x ≤ y ∧ y < col_stop e x ∧ w = mk_write e x y := by
  constructor
  · intro hw
    rcases List.mem_map.1 hw with ⟨y, hy, rfl⟩
    rcases List.mem_range'_1.1 hy with ⟨h1, h2⟩
    exact ⟨y, h1, by omega, rfl⟩
  · rintro ⟨y, h1, h2, rfl⟩
    exact List.mem_map.2 ⟨y, List.mem_range'_1.2 ⟨h1, by omega⟩, rfl⟩

/-- Membership in the uncancelled loop: exactly the writes of the traversed
columns. -/
theorem mem_writes_from_iff (e : ℕ) :
    ∀ fuel x0 w, w ∈ writes_from e (fun _ => false) x0 fuel ↔
      ∃ x, x0 ≤ x ∧ x < x0 + fuel ∧ w ∈ column_writes e x := by
  intro fuel
  induction fuel with
  | zero =>
    intro x0 w
    simp only [writes_from, List.not_mem_nil, false_iff, not_exists]
    intro x hx
    omega
  | succ n ih =>
    intro x0 w
    simp only [writes_from, Bool.false_eq_true, if_false, List.mem_append, ih]
    constructor
    · rintro (hw | ⟨x, h1, h2, h3⟩)
      · exact ⟨x0, le_refl _, by omega, hw⟩
      · exact ⟨x, by omega, by omega, h3⟩
    · rintro ⟨x, h1, h2, h3⟩
      rcases Nat.eq_or_lt_of_le h1 with rfl | h4
      · exact Or.inl h3
      · exact Or.inr ⟨x, by omega, by omega, h3⟩

/-- C3, counterexample: with edge length 4, the claim puts face BOTTOM in the
bottom row of column 0 (e.g. at atlas pixel (0, 0)), but `set_cubemap` never
writes any pixel of that tile: no write targets atlas pixel (0, 0). -/
theorem C3_counterexample :
    ¬ ∃ w ∈ set_cubemap_writes 4 (fun _ => false),
        w.x = 0 ∧ w.y = 0 ∧ w.face = Faces.BOTTOM := by
  decide

/-- C3, amended: columns 0, 1 and 3 of the atlas cross are filled only in the
middle row band, with faces BACK, LEFT and RIGHT respectively; column 2 spans
all three row bands, holding BOTTOM in the bottom band (`y < e`), TOP in the
top band (`y ≥ 2e`) and FRONT in the middle band.  The second conjunct ties
`atlas_face` to the actual writes of the loop. -/
theorem C3_cross_layout (e x y : ℕ) (he : 1 ≤ e) (hx : x < 4 * e) (hy : y < 3 * e) :
    (atlas_face e x y =
      if 2 * e ≤ x ∧ x < 3 * e then
        some (if y < e then Faces.BOTTOM else if 2 * e ≤ y then Faces.TOP else Faces.FRONT)
      else if e ≤ y ∧ y < 2 * e then
        some (if x < e then Faces.BACK else if x < 2 * e then Faces.LEFT else Faces.RIGHT)
      else none) ∧
    (∀ f, atlas_face e x y = some f ↔
      ∃ w ∈ set_cubemap_writes e (fun _ => false), w.x = x ∧ w.y = y ∧ w.face = f) := by
  have h0e : x / e = 0 ↔ x < e := by
    constructor
    · intro h
      have hd : e * (x / e) + x % e = x := Nat.div_add_mod x e
      have hr : x % e < e := Nat.mod_lt _ (by omega)
      rw [h] at hd
      omega
    · intro h
      exact Nat.div_eq_of_lt h
  have h1e : x / e = 1 ↔ e ≤ x ∧ x < 2 * e := by
    constructor
    · intro h
      have hd : e * (x / e) + x % e = x := Nat.div_add_mod x e
      have hr : x % e < e := Nat.mod_lt _ (by omega)
      rw [h] at hd
      omega
    · intro h
      exact Nat.div_eq_of_lt_le (by omega) (by omega)
  have h2e : x / e = 2 ↔ 2 * e ≤ x ∧ x < 3 * e := by
    constructor
    · intro h
      have hd : e * (x / e) + x % e = x := Nat.div_add_mod x e
      have hr : x % e < e := Nat.mod_lt _ (by omega)
      rw [h] at hd
      omega
    · intro h
      exact Nat.div_eq_of_lt_le (by omega) (by omega)
  constructor
  · by_cases h2 : x / e = 2
    · have hx1 : 2 * e ≤ x := by omega
      have hx2 : x < 3 * e := by omega
      rw [if_pos ⟨hx1, hx2⟩]
      simp only [atlas_face, col_start, col_stop, column_face, band_face, if_pos h2,
        if_neg (by omega : ¬ x / e = 0), if_neg (by omega : ¬ x / e = 1)]
      rw [if_pos ⟨hx, Nat.zero_le y, hy⟩]
    · have hcol : ¬ (2 * e ≤ x ∧ x < 3 * e) := by
        rintro ⟨hxa, hxb⟩
        omega
      rw [if_neg hcol]
      simp only [atlas_face, col_start, col_stop, column_face, band_face, if_neg h2]
      by_cases hband : e ≤ y ∧ y < 2 * e
      · rw [if_pos ⟨hx, hband.1, hband.2⟩, if_pos hband]
        have hyc1 : ¬ y < e := by omega
        have hyc2 : ¬ 2 * e ≤ y := by omega
        rw [if_neg hyc1, if_neg hyc2]
        by_cases h0 : x / e = 0
        · have : x < e := by omega
          simp only [if_pos h0, if_pos this]
        · rw [if_neg h0]
          by_cases h1 : x / e = 1
          · have hxe : ¬ x < e := by omega
            have hxe2 : x < 2 * e := by omega
            simp only [if_pos h1, if_neg hxe, if_pos hxe2]
          · have hxe : ¬ x < e := by omega
            have hxe2 : ¬ x < 2 * e := by omega
            simp only [if_neg h1, if_neg hxe, if_neg hxe2]
      · rw [if_neg hband, if_neg (by omega : ¬ (x < 4 * e ∧ e ≤ y ∧ y < 2 * e))]
  · intro f
    constructor
    · intro hf
      simp only [atlas_face] at hf
      by_cases hcond : x < 4 * e ∧ col_start e x ≤ y ∧ y < col_stop e x
      · rw [if_pos hcond, Option.some_inj] at hf
        refine ⟨mk_write e x y, ?_, rfl, rfl, hf⟩
        exact (mem_writes_from_iff e (4 * e) 0 _).2
          ⟨x, Nat.zero_le x, by omega, (mem_column_writes e x _).2 ⟨y, hcond.2.1, hcond.2.2, rfl⟩⟩
      · rw [if_neg hcond] at hf
        exact absurd hf (by simp)
    · rintro ⟨w, hw, hwx, hwy, hwf⟩
      rcases (mem_writes_from_iff e (4 * e) 0 w).1 hw with ⟨x', _, _, hcol⟩
      rcases (mem_column_writes e x' w).1 hcol with ⟨y', hy1, hy2, rfl⟩
      have hxx : x' = x := hwx
      have hyy : y' = y := hwy
      subst hxx; subst hyy
      simp only [atlas_face]
      rw [if_pos (show x' < 4 * e ∧ col_start e x' ≤ y' ∧ y' < col_stop e x' from
        ⟨hx, hy1, hy2⟩)]
      rw [← hwf]
      rfl

/-- Witness for the amended C3 with edge length 4, at atlas pixel (0, 0). -/
theorem C3_cross_layout_witness :
    ((1 : ℕ) ≤ 4 ∧ (0 : ℕ) < 4 * 4 ∧ (0 : ℕ) < 3 * 4) ∧
    (atlas_face 4 0 0 =
      if 2 * 4 ≤ 0 ∧ 0 < 3 * 4 then
        some (if 0 < 4 then Faces.BOTTOM else if 2 * 4 ≤ 0 then Faces.TOP else Faces.FRONT)
      else if 4 ≤ 0 ∧ 0 < 2 * 4 then
        some (if 0 < 4 then Faces.BACK else if 0 < 2 * 4 then Faces.LEFT else Faces.RIGHT)
      else none) ∧
    (∀ f, atlas_face 4 0 0 = some f ↔
      ∃ w ∈ set_cubemap_writes 4 (fun _ => false), w.x = 0 ∧ w.y = 0 ∧ w.face = f) := by
  refine ⟨⟨by decide, by decide, by decide⟩, ?_, ?_⟩
  · exact (C3_cross_layout 4 0 0 (by decide) (by decide) (by decide)).1
  · exact (C3_cross_layout 4 0 0 (by decide) (by decide) (by decide)).2

/-- A write of any in-range column/row pair belongs to the uncancelled loop. -/
theorem mk_write_mem (e x y : ℕ) (hx : x < 4 * e) (hy1 : col_start e x ≤ y)
    (hy2 : y < col_stop e x) :
    mk_write e x y ∈ set_cubemap_writes e (fun _ => false) :=
  (mem_writes_from_iff e (4 * e) 0 _).2
    ⟨x, Nat.zero_le x, by omega, (mem_column_writes e x _).2 ⟨y, hy1, hy2, rfl⟩⟩

theorem band_face_middle (e y : ℕ) (b : Faces) (h1 : e ≤ y) (h2 : y < 2 * e) :
    band_face e y b = b := by
  rw [band_face, if_neg (by omega), if_neg (by omega)]

theorem band_face_bottom (e y : ℕ) (b : Faces) (h : y < e) :
    band_face e y b = .BOTTOM := by
  rw [band_face, if_pos h]

theorem band_face_top (e y : ℕ) (b : Faces) (he : 1 ≤ e) (h : 2 * e ≤ y) :
    band_face e y b = .TOP := by
  rw [band_face, if_neg (by omega), if_pos h]

theorem column_face_eq0 (e x : ℕ) (h : x / e = 0) : column_face e x = .BACK := by
  rw [column_face, if_pos h]

theorem column_face_eq1 (e x : ℕ) (h : x / e = 1) : column_face e x = .LEFT := by
  rw [column_face, if_neg (by omega), if_pos h]

theorem column_face_eq2 (e x : ℕ) (h : x / e = 2) : column_face e x = .FRONT := by
  rw [column_face, if_neg (by omega), if_neg (by omega), if_pos h]

theorem column_face_eq3 (e x : ℕ) (h : x / e = 3) : column_face e x = .RIGHT := by
  rw [column_face, if_neg (by omega), if_neg (by omega), if_neg (by omega)]

/-- Any face-major offset `(k*E*E + u*E + v)*3` with `k ≤ 5` and in-face
coordinates `u, v < E` stays inside the `6*E*E*3`-byte atlas. -/
theorem index_in_range (idx k u v E : ℤ) (hidx : idx = (k * E * E + u * E + v) * 3)
    (hE : 1 ≤ E) (hk0 : 0 ≤ k) (hk : k ≤ 5) (hu : 0 ≤ u) (hu2 : u < E)
    (hv : 0 ≤ v) (hv2 : v < E) :
    0 ≤ idx ∧ idx + 2 < 6 * E * E * 3 := by
  have hE0 : (0 : ℤ) ≤ E := by linarith
  have h1 : 0 ≤ u * E := mul_nonneg hu hE0
  have h2 : 0 ≤ k * E * E := mul_nonneg (mul_nonneg hk0 hE0) hE0
  have h3 : u * E ≤ (E - 1) * E := mul_le_mul_of_nonneg_right (by linarith) hE0
  have h4 : k * E * E ≤ 5 * E * E := by nlinarith
  constructor
  · rw [hidx]
    nlinarith
  · rw [hidx]
    nlinarith

/-- C6: every face/pixel combination is written by `set_cubemap` at the
face-major byte offset `(face_index(f)*edge*edge + y*edge + x)*3` with face
indices FRONT=0, BACK=1, TOP=2, BOTTOM=3, RIGHT=4, LEFT=5, and every write of
the loop stays inside the `6*edge*edge*3`-byte output atlas. -/
theorem C6_face_major_offsets (e : ℕ) (he : 1 ≤ e) (f : Faces) (lx ly : ℕ)
    (hlx : lx < e) (hly : ly < e) :
    (∃ w ∈ set_cubemap_writes e (fun _ => false),
      w.face = f ∧ w.index = (faceIdx f * e * e + ly * e + lx) * 3) ∧
    (∀ w ∈ set_cubemap_writes e (fun _ => false),
      0 ≤ w.index ∧ w.index + 2 < 6 * e * e * 3) := by
  constructor
  · cases f with
    | FRONT =>
      have hdiv : (2 * e + lx) / e = 2 := Nat.div_eq_of_lt_le (by omega) (by omega)
      refine ⟨mk_write e (2 * e + lx) (e + ly),
        mk_write_mem e _ _ (by omega) (by rw [col_start, if_pos hdiv]; omega)
          (by rw [col_stop, if_pos hdiv]; omega), ?_, ?_⟩
      · show band_face e (e + ly) (column_face e (2 * e + lx)) = _
        rw [column_face_eq2 e _ hdiv, band_face_middle e _ _ (by omega) (by omega)]
      · show write_index e (band_face e (e + ly) (column_face e (2 * e + lx))) _ _ = _
        rw [column_face_eq2 e _ hdiv, band_face_middle e _ _ (by omega) (by omega)]
        simp only [write_index, faceIdx]
        push_cast
        ring
    | BACK =>
      have hdiv : lx / e = 0 := Nat.div_eq_of_lt hlx
      refine ⟨mk_write e lx (e + ly),
        mk_write_mem e _ _ (by omega) (by rw [col_start, if_neg (by omega)]; omega)
          (by rw [col_stop, if_neg (by omega)]; omega), ?_, ?_⟩
      · show band_face e (e + ly) (column_face e lx) = _
        rw [column_face_eq0 e _ hdiv, band_face_middle e _ _ (by omega) (by omega)]
      · show write_index e (band_face e (e + ly) (column_face e lx)) _ _ = _
        rw [column_face_eq0 e _ hdiv, band_face_middle e _ _ (by omega) (by omega)]
        simp only [write_index, faceIdx]
        push_cast
        ring
    | TOP =>
      have hdiv : (2 * e + lx) / e = 2 := Nat.div_eq_of_lt_le (by omega) (by omega)
      refine ⟨mk_write e (2 * e + lx) (2 * e + ly),
        mk_write_mem e _ _ (by omega) (by rw [col_start, if_pos hdiv]; omega)
          (by rw [col_stop, if_pos hdiv]; omega), ?_, ?_⟩
      · show band_face e (2 * e + ly) (column_face e (2 * e + lx)) = _
        rw [band_face_top e _ _ he (by omega)]
      · show write_index e (band_face e (2 * e + ly) (column_face e (2 * e + lx))) _ _ = _
        rw [band_face_top e _ _ he (by omega)]
        simp only [write_index, faceIdx]
        push_cast
        ring
    | BOTTOM =>
      have hdiv : (2 * e + lx) / e = 2 := Nat.div_eq_of_lt_le (by omega) (by omega)
      refine ⟨mk_write e (2 * e + lx) ly,
        mk_write_mem e _ _ (by omega) (by rw [col_start, if_pos hdiv]; omega)
          (by rw [col_stop, if_pos hdiv]; omega), ?_, ?_⟩
      · show band_face e ly (column_face e (2 * e + lx)) = _
        rw [band_face_bottom e _ _ hly]
      · show write_index e (band_face e ly (column_face e (2 * e + lx))) _ _ = _
        rw [band_face_bottom e _ _ hly]
        simp only [write_index, faceIdx]
        push_cast
        ring
    | RIGHT =>
      have hdiv : (3 * e + lx) / e = 3 := Nat.div_eq_of_lt_le (by omega) (by omega)
      refine ⟨mk_write e (3 * e + lx) (e + ly),
        mk_write_mem e _ _ (by omega) (by rw [col_start, if_neg (by omega)]; omega)
          (by rw [col_stop, if_neg (by omega)]; omega), ?_, ?_⟩
      · show band_face e (e + ly) (column_face e (3 * e + lx)) = _
        rw [column_face_eq3 e _ hdiv, band_face_middle e _ _ (by omega) (by omega)]
      · show write_index e (band_face e (e + ly) (column_face e (3 * e + lx))) _ _ = _
        rw [column_face_eq3 e _ hdiv, band_face_middle e _ _ (by omega) (by omega)]
        simp only [write_index, faceIdx]
        push_cast
        ring
    | LEFT =>
      have hdiv : (e + lx) / e = 1 := Nat.div_eq_of_lt_le (by omega) (by omega)
      refine ⟨mk_write e (e + lx) (e + ly),
        mk_write_mem e _ _ (by omega) (by rw [col_start, if_neg (by omega)]; omega)
          (by rw [col_stop, if_neg (by omega)]; omega), ?_, ?_⟩
      · show band_face e (e + ly) (column_face e (e + lx)) = _
        rw [column_face_eq1 e _ hdiv, band_face_middle e _ _ (by omega) (by omega)]
      · show write_index e (band_face e (e + ly) (column_face e (e + lx))) _ _ = _
        rw [column_face_eq1 e _ hdiv, band_face_middle e _ _ (by omega) (by omega)]
        simp only [write_index, faceIdx]
        push_cast
        ring
  · intro w hw
    rcases (mem_writes_from_iff e (4 * e) 0 w).1 hw with ⟨x, -, hx4, hcol⟩
    rcases (mem_column_writes e x w).1 hcol with ⟨y, hy1, hy2, rfl⟩
    have hxe : x < 4 * e := by omega
    have hq4 : x / e < 4 := (Nat.div_lt_iff_lt_mul (by omega)).2 (by omega)
    have hdm : e * (x / e) + x % e = x := Nat.div_add_mod x e
    have hrm : x % e < e := Nat.mod_lt _ (by omega)
    have heE : (1 : ℤ) ≤ (e : ℤ) := by exact_mod_cast he
    show 0 ≤ (mk_write e x y).index ∧ _
    by_cases h2 : x / e = 2
    · rw [col_start, if_pos h2] at hy1
      rw [col_stop, if_pos h2] at hy2
      rw [h2] at hdm
      have hxlo : 2 * (e : ℤ) ≤ (x : ℤ) := by exact_mod_cast (show 2 * e ≤ x by omega)
      have hxhi : (x : ℤ) < 3 * (e : ℤ) := by exact_mod_cast (show x < 3 * e by omega)
      by_cases hb : y < e
      · simp only [mk_write, column_face_eq2 e x h2, band_face_bottom e y _ hb, write_index]
        have hyE : ((y : ℕ) : ℤ) < (e : ℤ) := by exact_mod_cast hb
        exact index_in_range _ 3 (y : ℤ) ((x : ℤ) - 2 * e) e (by ring) heE
          (by norm_num) (by norm_num) (Int.natCast_nonneg _) hyE (by linarith) (by linarith)
      · by_cases ht : 2 * e ≤ y
        · simp only [mk_write, column_face_eq2 e x h2, band_face_top e y _ he ht, write_index]
          have hyE : ((y : ℕ) : ℤ) < 3 * (e : ℤ) := by exact_mod_cast hy2
          have hyE0 : 2 * (e : ℤ) ≤ ((y : ℕ) : ℤ) := by exact_mod_cast ht
          exact index_in_range _ 2 ((y : ℤ) - 2 * e) ((x : ℤ) - 2 * e) e (by ring)
            heE (by norm_num) (by norm_num) (by linarith) (by linarith) (by linarith)
            (by linarith)
        · simp only [mk_write, column_face_eq2 e x h2,
            band_face_middle e y _ (by omega) (by omega), write_index]
          have hyE : ((y : ℕ) : ℤ) < 2 * (e : ℤ) := by exact_mod_cast (show y < 2 * e by omega)
          have hyE0 : (e : ℤ) ≤ ((y : ℕ) : ℤ) := by exact_mod_cast (show e ≤ y by omega)
          exact index_in_range _ 0 ((y : ℤ) - e) ((x : ℤ) - 2 * e) e (by ring)
            heE (by norm_num) (by norm_num) (by linarith) (by linarith) (by linarith)
            (by linarith)
    · rw [col_start, if_neg h2] at hy1
      rw [col_stop, if_neg h2] at hy2
      have hyE : ((y : ℕ) : ℤ) < 2 * (e : ℤ) := by exact_mod_cast hy2
      have hyE0 : (e : ℤ) ≤ ((y : ℕ) : ℤ) := by exact_mod_cast hy1
      by_cases h0 : x / e = 0
      · rw [h0] at hdm
        have hxhi : (x : ℤ) < (e : ℤ) := by exact_mod_cast (show x < e by omega)
        simp only [mk_write, column_face_eq0 e x h0,
          band_face_middle e y _ hy1 hy2, write_index]
        exact index_in_range _ 1 ((y : ℤ) - e) (x : ℤ) e (by ring) heE
          (by norm_num) (by norm_num) (by linarith) (by linarith) (Int.natCast_nonneg _)
          hxhi
      · by_cases h1 : x / e = 1
        · rw [h1] at hdm
          have hxlo : (e : ℤ) ≤ (x : ℤ) := by exact_mod_cast (show e ≤ x by omega)
          have hxhi : (x : ℤ) < 2 * (e : ℤ) := by exact_mod_cast (show x < 2 * e by omega)
          simp only [mk_write, column_face_eq1 e x h1,
            band_face_middle e y _ hy1 hy2, write_index]
          exact index_in_range _ 5 ((y : ℤ) - e) ((x : ℤ) - e) e (by ring) heE
            (by norm_num) (by norm_num) (by linarith) (by linarith) (by linarith)
            (by linarith)
        · have h3 : x / e = 3 := by
            revert h0 h1 h2 hq4
            generalize x / e = q
            intro h0 h1 h2 hq4
            omega
          rw [h3] at hdm
          have hxlo : 3 * (e : ℤ) ≤ (x : ℤ) := by exact_mod_cast (show 3 * e ≤ x by omega)
          have hxhi : (x : ℤ) < 4 * (e : ℤ) := by exact_mod_cast (show x < 4 * e by omega)
          simp only [mk_write, column_face_eq3 e x h3,
            band_face_middle e y _ hy1 hy2, write_index]
          exact index_in_range _ 4 ((y : ℤ) - e) ((x : ℤ) - 3 * e) e (by ring) heE
            (by norm_num) (by norm_num) (by linarith) (by linarith) (by linarith)
            (by linarith)

/-- Witness for C6 with edge length 2, face LEFT, face-local pixel (1, 0). -/
theorem C6_face_major_offsets_witness :
    ((1 : ℕ) ≤ 2 ∧ (1 : ℕ) < 2 ∧ (0 : ℕ) < 2) ∧
    (∃ w ∈ set_cubemap_writes 2 (fun _ => false),
      w.face = Faces.LEFT ∧ w.index = (faceIdx Faces.LEFT * 2 * 2 + 0 * 2 + 1) * 3) := by
  exact ⟨⟨by decide, by decide, by decide⟩,
    (C6_face_major_offsets 2 (by decide) Faces.LEFT 1 0 (by decide) (by decide)).1⟩

theorem cround_intCast (n : ℤ) : cround (n : ℚ) = n := by
  unfold cround
  by_cases h : (0 : ℚ) ≤ (n : ℚ)
  · rw [if_pos h, add_comm, Int.floor_add_int]
    norm_num
  · rw [if_neg h, sub_eq_add_neg, add_comm, Int.ceil_add_int]
    norm_num

theorem clipD_eq_self (q lo hi : ℚ) (h1 : lo ≤ q) (h2 : q ≤ hi) : clipD q lo hi = q := by
  rw [clipD, max_eq_left h1, min_eq_left h2]

theorem texel_unfold_right (d : Coordinates) (fl : ℤ)
    (h : set_output_pixel_face d = .RIGHT) :
    set_output_pixel_texel d fl =
      (.RIGHT,
        half_len fl - cround (clipD (proj_scaled d.z d fl) (-(half_len fl) + 1) (half_len fl)),
        cround (clipD (proj_scaled d.y d fl) (-(half_len fl)) (half_len fl - 1))
          + half_len fl) := by
  unfold set_output_pixel_texel
  rw [h]

theorem texel_unfold_left (d : Coordinates) (fl : ℤ)
    (h : set_output_pixel_face d = .LEFT) :
    set_output_pixel_texel d fl =
      (.LEFT,
        cround (clipD (proj_scaled d.z d fl) (-(half_len fl)) (half_len fl - 1)) + half_len fl,
        cround (clipD (proj_scaled d.y d fl) (-(half_len fl)) (half_len fl - 1))
          + half_len fl) := by
  unfold set_output_pixel_texel
  rw [h]

theorem texel_unfold_top (d : Coordinates) (fl : ℤ)
    (h : set_output_pixel_face d = .TOP) :
    set_output_pixel_texel d fl =
      (.TOP,
        cround (clipD (proj_scaled d.x d fl) (-(half_len fl)) (half_len fl - 1)) + half_len fl,
        half_len fl - cround (clipD (proj_scaled d.z d fl) (-(half_len fl) + 1) (half_len fl))) := by
  unfold set_output_pixel_texel
  rw [h]

theorem texel_unfold_bottom (d : Coordinates) (fl : ℤ)
    (h : set_output_pixel_face d = .BOTTOM) :
    set_output_pixel_texel d fl =
      (.BOTTOM,
        cround (clipD (proj_scaled d.x d fl) (-(half_len fl)) (half_len fl - 1)) + half_len fl,
        cround (clipD (proj_scaled d.z d fl) (-(half_len fl)) (half_len fl - 1))
          + half_len fl) := by
  unfold set_output_pixel_texel
  rw [h]

theorem texel_unfold_front (d : Coordinates) (fl : ℤ)
    (h : set_output_pixel_face d = .FRONT) :
    set_output_pixel_texel d fl =
      (.FRONT,
        cround (clipD (proj_scaled d.x d fl) (-(half_len fl)) (half_len fl - 1)) + half_len fl,
        cround (clipD (proj_scaled d.y d fl) (-(half_len fl)) (half_len fl - 1))
          + half_len fl) := by
  unfold set_output_pixel_texel
  rw [h]

theorem texel_unfold_back (d : Coordinates) (fl : ℤ)
    (h : set_output_pixel_face d = .BACK) :
    set_output_pixel_texel d fl =
      (.BACK,
        half_len fl - cround (clipD (proj_scaled d.x d fl) (-(half_len fl) + 1) (half_len fl)),
        cround (clipD (proj_scaled d.y d fl) (-(half_len fl)) (half_len fl - 1))
          + half_len fl) := by
  unfold set_output_pixel_texel
  rw [h]

/-- Projector branch for a direction with dominant positive x component. -/
theorem texel_of_xpos (p q : ℚ) (fl : ℤ) (hp : |p| < 1) (hq : |q| < 1) :
    set_output_pixel_texel ⟨1, p, q⟩ fl =
      (.RIGHT,
        half_len fl -
          cround (clipD (q * ((half_len fl : ℤ) : ℚ)) (-(half_len fl) + 1) (half_len fl)),
        cround (clipD (p * ((half_len fl : ℤ) : ℚ)) (-(half_len fl)) (half_len fl - 1))
          + half_len fl) := by
  have hcond : |(1 : ℚ)| > |p| ∧ |(1 : ℚ)| > |q| := by rw [abs_one]; exact ⟨hp, hq⟩
  have hface : set_output_pixel_face ⟨1, p, q⟩ = .RIGHT := by
    rw [set_output_pixel_face]
    rw [if_pos hcond, if_pos (by norm_num : (1 : ℚ) > 0)]
  have habs : set_output_pixel_absmax ⟨1, p, q⟩ = 1 := by
    rw [set_output_pixel_absmax, if_pos hcond, abs_one]
  rw [texel_unfold_right _ _ hface]
  simp only [proj_scaled, habs, div_one]

/-- Projector branch for a direction with dominant negative x component. -/
theorem texel_of_xneg (p q : ℚ) (fl : ℤ) (hp : |p| < 1) (hq : |q| < 1) :
    set_output_pixel_texel ⟨-1, p, q⟩ fl =
      (.LEFT,
        cround (clipD (q * ((half_len fl : ℤ) : ℚ)) (-(half_len fl)) (half_len fl - 1))
          + half_len fl,
        cround (clipD (p * ((half_len fl : ℤ) : ℚ)) (-(half_len fl)) (half_len fl - 1))
          + half_len fl) := by
  have hcond : |(-1 : ℚ)| > |p| ∧ |(-1 : ℚ)| > |q| := by
    rw [abs_neg, abs_one]; exact ⟨hp, hq⟩
  have hface : set_output_pixel_face ⟨-1, p, q⟩ = .LEFT := by
    rw [set_output_pixel_face]
    rw [if_pos hcond, if_neg (by norm_num : ¬ (-1 : ℚ) > 0)]
  have habs : set_output_pixel_absmax ⟨-1, p, q⟩ = 1 := by
    rw [set_output_pixel_absmax, if_pos hcond, abs_neg, abs_one]
  rw [texel_unfold_left _ _ hface]
  simp only [proj_scaled, habs, div_one]

/-- Projector branch for a direction with dominant positive y component. -/
theorem texel_of_ypos (p q : ℚ) (fl : ℤ) (hp : |p| < 1) (hq : |q| < 1) :
    set_output_pixel_texel ⟨p, 1, q⟩ fl =
      (.TOP,
        cround (clipD (p * ((half_len fl : ℤ) : ℚ)) (-(half_len fl)) (half_len fl - 1))
          + half_len fl,
        half_len fl -
          cround (clipD (q * ((half_len fl : ℤ) : ℚ)) (-(half_len fl) + 1) (half_len fl))) := by
  have hnot : ¬ (|p| > |(1 : ℚ)| ∧ |p| > |q|) := by
    rw [abs_one]
    rintro ⟨h1, -⟩
    linarith
  have hcond : |(1 : ℚ)| > |p| ∧ |(1 : ℚ)| > |q| := by rw [abs_one]; exact ⟨hp, hq⟩
  have hface : set_output_pixel_face ⟨p, 1, q⟩ = .TOP := by
    rw [set_output_pixel_face]
    rw [if_neg hnot, if_pos hcond, if_pos (by norm_num : (1 : ℚ) > 0)]
  have habs : set_output_pixel_absmax ⟨p, 1, q⟩ = 1 := by
    rw [set_output_pixel_absmax, if_neg hnot, if_pos hcond, abs_one]
  rw [texel_unfold_top _ _ hface]
  simp only [proj_scaled, habs, div_one]

/-- Projector branch for a direction with dominant negative y component. -/
theorem texel_of_yneg (p q : ℚ) (fl : ℤ) (hp : |p| < 1) (hq : |q| < 1) :
    set_output_pixel_texel ⟨p, -1, q⟩ fl =
      (.BOTTOM,
        cround (clipD (p * ((half_len fl : ℤ) : ℚ)) (-(half_len fl)) (half_len fl - 1))
          + half_len fl,
        cround (clipD (q * ((half_len fl : ℤ) : ℚ)) (-(half_len fl)) (half_len fl - 1))
          + half_len fl) := by
  have hnot : ¬ (|p| > |(-1 : ℚ)| ∧ |p| > |q|) := by
    rw [abs_neg, abs_one]
    rintro ⟨h1, -⟩
    linarith
  have hcond : |(-1 : ℚ)| > |p| ∧ |(-1 : ℚ)| > |q| := by
    rw [abs_neg, abs_one]; exact ⟨hp, hq⟩
  have hface : set_output_pixel_face ⟨p, -1, q⟩ = .BOTTOM := by
    rw [set_output_pixel_face]
    rw [if_neg hnot, if_pos hcond, if_neg (by norm_num : ¬ (-1 : ℚ) > 0)]
  have habs : set_output_pixel_absmax ⟨p, -1, q⟩ = 1 := by
    rw [set_output_pixel_absmax, if_neg hnot, if_pos hcond, abs_neg, abs_one]
  rw [texel_unfold_bottom _ _ hface]
  simp only [proj_scaled, habs, div_one]

/-- Projector branch for a direction with dominant positive z component. -/
theorem texel_of_zpos (p q : ℚ) (fl : ℤ) (hp : |p| < 1) (hq : |q| < 1) :
    set_output_pixel_texel ⟨p, q, 1⟩ fl =
      (.FRONT,
        cround (clipD (p * ((half_len fl : ℤ) : ℚ)) (-(half_len fl)) (half_len fl - 1))
          + half_len fl,
        cround (clipD (q * ((half_len fl : ℤ) : ℚ)) (-(half_len fl)) (half_len fl - 1))
          + half_len fl) := by
  have hnot1 : ¬ (|p| > |q| ∧ |p| > |(1 : ℚ)|) := by
    rw [abs_one]
    rintro ⟨-, h1⟩
    linarith
  have hnot2 : ¬ (|q| > |p| ∧ |q| > |(1 : ℚ)|) := by
    rw [abs_one]
    rintro ⟨-, h1⟩
    linarith
  have hface : set_output_pixel_face ⟨p, q, 1⟩ = .FRONT := by
    rw [set_output_pixel_face]
    rw [if_neg hnot1, if_neg hnot2, if_pos (by norm_num : (1 : ℚ) > 0)]
  have habs : set_output_pixel_absmax ⟨p, q, 1⟩ = 1 := by
    rw [set_output_pixel_absmax, if_neg hnot1, if_neg hnot2, abs_one]
  rw [texel_unfold_front _ _ hface]
  simp only [proj_scaled, habs, div_one]

/-- Projector branch for a direction with dominant negative z component. -/
theorem texel_of_zneg (p q : ℚ) (fl : ℤ) (hp : |p| < 1) (hq : |q| < 1) :
    set_output_pixel_texel ⟨p, q, -1⟩ fl =
      (.BACK,
        half_len fl -
          cround (clipD (p * ((half_len fl : ℤ) : ℚ)) (-(half_len fl) + 1) (half_len fl)),
        cround (clipD (q * ((half_len fl : ℤ) : ℚ)) (-(half_len fl)) (half_len fl - 1))
          + half_len fl) := by
  have hnot1 : ¬ (|p| > |q| ∧ |p| > |(-1 : ℚ)|) := by
    rw [abs_neg, abs_one]
    rintro ⟨-, h1⟩
    linarith
  have hnot2 : ¬ (|q| > |p| ∧ |q| > |(-1 : ℚ)|) := by
    rw [abs_neg, abs_one]
    rintro ⟨-, h1⟩
    linarith
  have hface : set_output_pixel_face ⟨p, q, -1⟩ = .BACK := by
    rw [set_output_pixel_face]
    rw [if_neg hnot1, if_neg hnot2, if_neg (by norm_num : ¬ (-1 : ℚ) > 0)]
  have habs : set_output_pixel_absmax ⟨p, q, -1⟩ = 1 := by
    rw [set_output_pixel_absmax, if_neg hnot1, if_neg hnot2, abs_neg, abs_one]
  rw [texel_unfold_back _ _ hface]
  simp only [proj_scaled, habs, div_one]

/-- The builder's write offset is the face-major offset of `builder_local`. -/
theorem write_index_is_face_major (e : ℕ) (f : Faces) (x y : ℕ) :
    write_index e f x y =
      cubemap_index f (builder_local f e x y).1 (builder_local f e x y).2 e := by
  cases f <;> simp only [write_index, builder_local, cubemap_index, faceIdx] <;> push_cast <;> ring

/-- C1, counterexample: with edge length 8, the FRONT-face atlas pixel
(17, 9) (face-local (1, 1)) does not round-trip: the Builder direction
(1, -3/4, 3/4) is sent by the Projector to face RIGHT, not FRONT. -/
theorem C1_counterexample :
    set_output_pixel_texel (Coordinates.set 17 9 Faces.FRONT 8) 8
      ≠ (Faces.FRONT, builder_local Faces.FRONT 8 17 9) := by
  have hd : Coordinates.set 17 9 Faces.FRONT 8 = ⟨1, -3/4, 3/4⟩ := by
    simp only [Coordinates.set, Coordinates.mk.injEq]
    norm_num
  rw [hd, texel_of_xpos (-3/4) (3/4) 8 (by rw [abs_lt]; norm_num) (by rw [abs_lt]; norm_num)]
  intro hcontra
  rw [Prod.mk.injEq] at hcontra
  exact absurd hcontra.1 (by intro hff; cases hff)

theorem clip_round_mid (h v : ℤ) (hlo : -h ≤ v) (hhi : v ≤ h - 1) :
    cround (clipD ((v : ℤ) : ℚ) (-((h : ℤ) : ℚ)) (((h : ℤ) : ℚ) - 1)) = v := by
  rw [clipD_eq_self _ _ _ (by exact_mod_cast hlo) (by
    have : ((v : ℤ) : ℚ) ≤ ((h - 1 : ℤ) : ℚ) := by exact_mod_cast hhi
    push_cast at this
    linarith)]
  exact cround_intCast v

theorem clip_round_hi (h v : ℤ) (hlo : -h + 1 ≤ v) (hhi : v ≤ h) :
    cround (clipD ((v : ℤ) : ℚ) (-((h : ℤ) : ℚ) + 1) ((h : ℤ) : ℚ)) = v := by
  rw [clipD_eq_self _ _ _ (by
    have : ((-h + 1 : ℤ) : ℚ) ≤ ((v : ℤ) : ℚ) := by exact_mod_cast hlo
    push_cast at this
    linarith) (by exact_mod_cast hhi)]
  exact cround_intCast v

theorem scale_sub (h c : ℤ) (hne : ((h : ℤ) : ℚ) ≠ 0) :
    ((c : ℚ) / (h : ℚ) - 1) * ((h : ℤ) : ℚ) = ((c - h : ℤ) : ℚ) := by
  push_cast
  field_simp

theorem scale_mirror (h c : ℤ) (hne : ((h : ℤ) : ℚ) ≠ 0) :
    (1 - (c : ℚ) / (h : ℚ)) * ((h : ℤ) : ℚ) = ((h - c : ℤ) : ℚ) := by
  push_cast
  field_simp

theorem half_len_two_mul (h : ℤ) : half_len (2 * h) = h := by
  unfold half_len
  omega

/-- C1, amended: the Builder's face-pixel-to-direction mapping and the
Projector's direction-to-face-local mapping are not inverse.  For every even
edge length `2h` and interior face-local pixel `(a, b)` of face `f`, the
Projector sends the Builder direction of that pixel to the permuted face
`round_trip_face f` (FRONT→RIGHT, BACK→LEFT, TOP→BACK, BOTTOM→FRONT,
RIGHT→TOP, LEFT→BOTTOM) and to the transposed/mirrored texel
`round_trip_texel f`. -/
theorem C1_round_trip_permuted (h a b : ℤ) (f : Faces) (hh : 1 ≤ h)
    (ha1 : 1 ≤ a) (ha2 : a ≤ 2 * h - 1) (hb1 : 1 ≤ b) (hb2 : b ≤ 2 * h - 1) :
    set_output_pixel_texel
      (Coordinates.set (atlas_coords f (2 * h) a b).1 (atlas_coords f (2 * h) a b).2 f
        ((2 * h : ℤ) : ℚ))
      (2 * h)
      = (round_trip_face f, round_trip_texel f (2 * h) a b) := by
  have hq0 : (0 : ℚ) < (h : ℚ) := by exact_mod_cast (by omega : (0 : ℤ) < h)
  have hne : ((h : ℤ) : ℚ) ≠ 0 := ne_of_gt hq0
  have haq1 : (1 : ℚ) ≤ (a : ℚ) := by exact_mod_cast ha1
  have haq2 : (a : ℚ) ≤ 2 * (h : ℚ) - 1 := by
    have : ((a : ℤ) : ℚ) ≤ ((2 * h - 1 : ℤ) : ℚ) := by exact_mod_cast ha2
    push_cast at this
    linarith
  have hbq1 : (1 : ℚ) ≤ (b : ℚ) := by exact_mod_cast hb1
  have hbq2 : (b : ℚ) ≤ 2 * (h : ℚ) - 1 := by
    have : ((b : ℤ) : ℚ) ≤ ((2 * h - 1 : ℤ) : ℚ) := by exact_mod_cast hb2
    push_cast at this
    linarith
  have hPa : |(a : ℚ) / (h : ℚ) - 1| < 1 := by
    rw [abs_lt]
    constructor
    · have : 0 < (a : ℚ) / (h : ℚ) := div_pos (by linarith) hq0
      linarith
    · have : (a : ℚ) / (h : ℚ) < 2 := (div_lt_iff₀ hq0).2 (by linarith)
      linarith
  have hMa : |1 - (a : ℚ) / (h : ℚ)| < 1 := by rw [abs_sub_comm]; exact hPa
  have hPb : |(b : ℚ) / (h : ℚ) - 1| < 1 := by
    rw [abs_lt]
    constructor
    · have : 0 < (b : ℚ) / (h : ℚ) := div_pos (by linarith) hq0
      linarith
    · have : (b : ℚ) / (h : ℚ) < 2 := (div_lt_iff₀ hq0).2 (by linarith)
      linarith
  have hMb : |1 - (b : ℚ) / (h : ℚ)| < 1 := by rw [abs_sub_comm]; exact hPb
  cases f with
  | FRONT =>
    have hd : Coordinates.set (atlas_coords Faces.FRONT (2 * h) a b).1
        (atlas_coords Faces.FRONT (2 * h) a b).2 Faces.FRONT ((2 * h : ℤ) : ℚ)
        = ⟨1, (a : ℚ) / (h : ℚ) - 1, 1 - (b : ℚ) / (h : ℚ)⟩ := by
      simp only [atlas_coords, Coordinates.set, Coordinates.mk.injEq]
      refine ⟨trivial, ?_, ?_⟩ <;> (push_cast; field_simp; ring)
    rw [hd, texel_of_xpos _ _ _ hPa hMb]
    simp only [half_len_two_mul]
    rw [scale_mirror h b hne, scale_sub h a hne]
    rw [clip_round_hi h (h - b) (by omega) (by omega),
      clip_round_mid h (a - h) (by omega) (by omega)]
    simp only [round_trip_face, round_trip_texel, Prod.mk.injEq]
    refine ⟨trivial, by ring, by ring⟩
  | BACK =>
    have hd : Coordinates.set (atlas_coords Faces.BACK (2 * h) a b).1
        (atlas_coords Faces.BACK (2 * h) a b).2 Faces.BACK ((2 * h : ℤ) : ℚ)
        = ⟨-1, 1 - (a : ℚ) / (h : ℚ), 1 - (b : ℚ) / (h : ℚ)⟩ := by
      simp only [atlas_coords, Coordinates.set, Coordinates.mk.injEq]
      refine ⟨trivial, ?_, ?_⟩ <;> (push_cast; field_simp; ring)
    rw [hd, texel_of_xneg _ _ _ hMa hMb]
    simp only [half_len_two_mul]
    rw [scale_mirror h b hne, scale_mirror h a hne]
    rw [clip_round_mid h (h - b) (by omega) (by omega),
      clip_round_mid h (h - a) (by omega) (by omega)]
    simp only [round_trip_face, round_trip_texel, Prod.mk.injEq]
    refine ⟨trivial, by ring, by ring⟩
  | TOP =>
    have hd : Coordinates.set (atlas_coords Faces.TOP (2 * h) a b).1
        (atlas_coords Faces.TOP (2 * h) a b).2 Faces.TOP ((2 * h : ℤ) : ℚ)
        = ⟨1 - (b : ℚ) / (h : ℚ), (a : ℚ) / (h : ℚ) - 1, -1⟩ := by
      simp only [atlas_coords, Coordinates.set, Coordinates.mk.injEq]
      refine ⟨?_, ?_, trivial⟩ <;> (push_cast; field_simp; ring)
    rw [hd, texel_of_zneg _ _ _ hMb hPa]
    simp only [half_len_two_mul]
    rw [scale_mirror h b hne, scale_sub h a hne]
    rw [clip_round_hi h (h - b) (by omega) (by omega),
      clip_round_mid h (a - h) (by omega) (by omega)]
    simp only [round_trip_face, round_trip_texel, Prod.mk.injEq]
    refine ⟨trivial, by ring, by ring⟩
  | BOTTOM =>
    have hd : Coordinates.set (atlas_coords Faces.BOTTOM (2 * h) a b).1
        (atlas_coords Faces.BOTTOM (2 * h) a b).2 Faces.BOTTOM ((2 * h : ℤ) : ℚ)
        = ⟨(b : ℚ) / (h : ℚ) - 1, (a : ℚ) / (h : ℚ) - 1, 1⟩ := by
      simp only [atlas_coords, Coordinates.set, Coordinates.mk.injEq]
      refine ⟨?_, ?_, trivial⟩ <;> (push_cast; field_simp; ring)
    rw [hd, texel_of_zpos _ _ _ hPb hPa]
    simp only [half_len_two_mul]
    rw [scale_sub h b hne, scale_sub h a hne]
    rw [clip_round_mid h (b - h) (by omega) (by omega),
      clip_round_mid h (a - h) (by omega) (by omega)]
    simp only [round_trip_face, round_trip_texel, Prod.mk.injEq]
    refine ⟨trivial, by ring, by ring⟩
  | RIGHT =>
    have hd : Coordinates.set (atlas_coords Faces.RIGHT (2 * h) a b).1
        (atlas_coords Faces.RIGHT (2 * h) a b).2 Faces.RIGHT ((2 * h : ℤ) : ℚ)
        = ⟨1 - (a : ℚ) / (h : ℚ), 1, 1 - (b : ℚ) / (h : ℚ)⟩ := by
      simp only [atlas_coords, Coordinates.set, Coordinates.mk.injEq]
      refine ⟨?_, trivial, ?_⟩ <;> (push_cast; field_simp; ring)
    rw [hd, texel_of_ypos _ _ _ hMa hMb]
    simp only [half_len_two_mul]
    rw [scale_mirror h a hne, scale_mirror h b hne]
    rw [clip_round_mid h (h - a) (by omega) (by omega),
      clip_round_hi h (h - b) (by omega) (by omega)]
    simp only [round_trip_face, round_trip_texel, Prod.mk.injEq]
    refine ⟨trivial, by ring, by ring⟩
  | LEFT =>
    have hd : Coordinates.set (atlas_coords Faces.LEFT (2 * h) a b).1
        (atlas_coords Faces.LEFT (2 * h) a b).2 Faces.LEFT ((2 * h : ℤ) : ℚ)
        = ⟨(a : ℚ) / (h : ℚ) - 1, -1, 1 - (b : ℚ) / (h : ℚ)⟩ := by
      simp only [atlas_coords, Coordinates.set, Coordinates.mk.injEq]
      refine ⟨?_, trivial, ?_⟩ <;> (push_cast; field_simp; ring)
    rw [hd, texel_of_yneg _ _ _ hPa hMb]
    simp only [half_len_two_mul]
    rw [scale_sub h a hne, scale_mirror h b hne]
    rw [clip_round_mid h (a - h) (by omega) (by omega),
      clip_round_mid h (h - b) (by omega) (by omega)]
    simp only [round_trip_face, round_trip_texel, Prod.mk.injEq]
    refine ⟨trivial, by ring, by ring⟩

/-- Witness for the amended C1 at edge length 8 (`h = 4`), face FRONT,
face-local pixel (1, 1): the Projector yields (RIGHT, (1, 1)). -/
theorem C1_round_trip_permuted_witness :
    ((1 : ℤ) ≤ 4 ∧ (1 : ℤ) ≤ 1 ∧ (1 : ℤ) ≤ 2 * 4 - 1) ∧
    set_output_pixel_texel
      (Coordinates.set (atlas_coords Faces.FRONT (2 * 4) 1 1).1
        (atlas_coords Faces.FRONT (2 * 4) 1 1).2 Faces.FRONT ((2 * 4 : ℤ) : ℚ))
      (2 * 4)
      = (round_trip_face Faces.FRONT, round_trip_texel Faces.FRONT (2 * 4) 1 1) := by
  exact ⟨⟨by norm_num, by norm_num, by norm_num⟩,
    C1_round_trip_permuted 4 1 1 Faces.FRONT (by norm_num) (by norm_num) (by norm_num)
      (by norm_num) (by norm_num)⟩

theorem geom_sum_remainder (s : ℝ) (n : ℕ) :
    (1 + s ^ 2)⁻¹ =
      (∑ k in Finset.range n, (-1) ^ k * s ^ (2 * k)) + (-1) ^ n * s ^ (2 * n) / (1 + s ^ 2) := by
  have hs : (0 : ℝ) < 1 + s ^ 2 := by positivity
  induction n with
  | zero => simp
  | succ m ih =>
    rw [Finset.sum_range_succ]
    rw [show (∑ k in Finset.range m, (-1 : ℝ) ^ k * s ^ (2 * k)) + (-1) ^ m * s ^ (2 * m) +
        (-1) ^ (m + 1) * s ^ (2 * (m + 1)) / (1 + s ^ 2)
        = (∑ k in Finset.range m, (-1 : ℝ) ^ k * s ^ (2 * k)) + ((-1) ^ m * s ^ (2 * m) +
        (-1) ^ (m + 1) * s ^ (2 * (m + 1)) / (1 + s ^ 2)) from by ring]
    rw [ih]
    have key : (-1 : ℝ) ^ m * s ^ (2 * m) / (1 + s ^ 2)
        = (-1) ^ m * s ^ (2 * m) + (-1) ^ (m + 1) * s ^ (2 * (m + 1)) / (1 + s ^ 2) := by
      field_simp
      ring
    linarith [key]

theorem integrable_pow_div (t : ℝ) (n : ℕ) :
    IntervalIntegrable (fun s : ℝ => s ^ (2 * n) / (1 + s ^ 2)) MeasureTheory.volume 0 t := by
  apply Continuous.intervalIntegrable
  apply Continuous.div (continuous_pow _) (by continuity)
  intro s
  positivity

/-- The arctan alternating series with its exact integral remainder. -/
theorem arctan_series_remainder (t : ℝ) (n : ℕ) :
    arctan t = SR n t + (-1) ^ n * ∫ s in (0:ℝ)..t, s ^ (2 * n) / (1 + s ^ 2) := by
  have h0 : arctan t = ∫ s in (0:ℝ)..t, (1 + s ^ 2)⁻¹ := by
    rw [integral_inv_one_add_sq, arctan_zero, sub_zero]
  have hsum : IntervalIntegrable
      (fun s : ℝ => ∑ k in Finset.range n, (-1 : ℝ) ^ k * s ^ (2 * k))
      MeasureTheory.volume 0 t := by
    apply Continuous.intervalIntegrable
    continuity
  have hrem : IntervalIntegrable (fun s : ℝ => (-1 : ℝ) ^ n * (s ^ (2 * n) / (1 + s ^ 2)))
      MeasureTheory.volume 0 t := (integrable_pow_div t n).const_mul _
  calc arctan t = ∫ s in (0:ℝ)..t, (1 + s ^ 2)⁻¹ := h0
    _ = ∫ s in (0:ℝ)..t, ((∑ k in Finset.range n, (-1 : ℝ) ^ k * s ^ (2 * k))
          + (-1) ^ n * (s ^ (2 * n) / (1 + s ^ 2))) := by
        apply intervalIntegral.integral_congr
        intro s _
        simp only
        rw [geom_sum_remainder s n]
        ring
    _ = (∫ s in (0:ℝ)..t, ∑ k in Finset.range n, (-1 : ℝ) ^ k * s ^ (2 * k))
          + ∫ s in (0:ℝ)..t, (-1) ^ n * (s ^ (2 * n) / (1 + s ^ 2)) :=
        intervalIntegral.integral_add hsum hrem
    _ = SR n t + (-1) ^ n * ∫ s in (0:ℝ)..t, s ^ (2 * n) / (1 + s ^ 2) := by
        rw [intervalIntegral.integral_const_mul]
        congr 1
        rw [intervalIntegral.integral_finset_sum]
        · unfold SR
          apply Finset.sum_congr rfl
          intro k _
          rw [intervalIntegral.integral_const_mul, integral_pow]
          simp
          ring
        · intro k _
          apply Continuous.intervalIntegrable
          continuity

theorem remainder_nonneg (t : ℝ) (ht : 0 ≤ t) (n : ℕ) :
    0 ≤ ∫ s in (0:ℝ)..t, s ^ (2 * n) / (1 + s ^ 2) := by
  apply intervalIntegral.integral_nonneg ht
  intro u _
  apply div_nonneg
  · rw [pow_mul]
    positivity
  · positivity

theorem SR_even_le_arctan (t : ℝ) (ht : 0 ≤ t) (n : ℕ) (hn : Even n) : SR n t ≤ arctan t := by
  rw [arctan_series_remainder t n, hn.neg_one_pow]
  have := remainder_nonneg t ht n
  linarith

theorem arctan_le_SR_odd (t : ℝ) (ht : 0 ≤ t) (n : ℕ) (hn : Odd n) : arctan t ≤ SR n t := by
  rw [arctan_series_remainder t n, hn.neg_one_pow]
  have := remainder_nonneg t ht n
  linarith

/-- The rational certificate holds at every grid ratio `j/k` with `j < k ≤ 10`. -/
theorem check_ratios : ∀ j k : ℕ, j < k → k ≤ 10 → checkP ((j : ℚ) / k) := by
  intro j k hjk hk10
  interval_cases k <;> interval_cases j <;>
    (unfold checkP Sq atan_approx a1 a3 a5 a7 a9 a11; norm_num [Finset.sum_range_succ])

theorem Sq_cast (n : ℕ) (t : ℚ) : ((Sq n t : ℚ) : ℝ) = SR n (t : ℝ) := by
  unfold Sq SR
  push_cast
  rfl

/-- A verified certificate transfers to a bound against the exact arctan. -/
theorem E_le_of_checks (t : ℚ) (h0 : 0 ≤ t) (hc : checkP t) :
    |((atan_approx t : ℚ) : ℝ) - arctan ((t : ℚ) : ℝ)| ≤ 1 / 100 := by
  have ht0 : (0 : ℝ) ≤ (t : ℝ) := by exact_mod_cast h0
  have hlow := SR_even_le_arctan (t : ℝ) ht0 12 (by decide)
  have hhigh := arctan_le_SR_odd (t : ℝ) ht0 13 (by decide)
  have hc1R : ((Sq 13 t : ℚ) : ℝ) - 1 / 100 ≤ ((atan_approx t : ℚ) : ℝ) := by
    have h : (((Sq 13 t - 1 / 100 : ℚ)) : ℝ) ≤ ((atan_approx t : ℚ) : ℝ) := by
      exact_mod_cast hc.1
    push_cast at h
    exact h
  have hc2R : ((atan_approx t : ℚ) : ℝ) ≤ ((Sq 12 t : ℚ) : ℝ) + 1 / 100 := by
    have h : ((atan_approx t : ℚ) : ℝ) ≤ (((Sq 12 t + 1 / 100 : ℚ)) : ℝ) := by
      exact_mod_cast hc.2
    push_cast at h
    exact h
  rw [Sq_cast] at hc1R hc2R
  rw [abs_le]
  constructor
  · linarith
  · linarith

/-- Polynomial accuracy at the corner value `t = 1` via the pi bounds. -/
theorem E_one : |((atan_approx 1 : ℚ) : ℝ) - arctan ((1 : ℚ) : ℝ)| ≤ 1 / 100 := by
  have hp : (atan_approx 1 : ℚ) = 78539650 / 100000000 := by
    norm_num [atan_approx, a1, a3, a5, a7, a9, a11]
  rw [hp, show ((1 : ℚ) : ℝ) = 1 from by norm_num, arctan_one]
  have h1 : (3.141592 : ℝ) < π := pi_gt_d6
  have h2 : π < (3.141593 : ℝ) := pi_lt_d6
  norm_num at h1 h2 ⊢
  rw [abs_le]
  constructor
  · linarith
  · linarith

/-- The polynomial and arctan are both odd, so the error is even. -/
theorem E_neg (t : ℚ) :
    |((atan_approx (-t) : ℚ) : ℝ) - arctan ((-t : ℚ) : ℝ)|
      = |((atan_approx t : ℚ) : ℝ) - arctan ((t : ℚ) : ℝ)| := by
  have h1 : atan_approx (-t) = -atan_approx t := by unfold atan_approx; ring
  rw [h1]
  push_cast
  rw [Real.arctan_neg]
  rw [show -((atan_approx t : ℚ) : ℝ) - -arctan ((t : ℚ) : ℝ)
      = -(((atan_approx t : ℚ) : ℝ) - arctan ((t : ℚ) : ℝ)) from by ring]
  exact abs_neg _

/-- Polynomial accuracy at every nonnegative grid ratio `j/k`, `j ≤ k ≤ 10`. -/
theorem E_nat_ratio (j k : ℕ) (hjk : j ≤ k) (hk1 : 1 ≤ k) (hk10 : k ≤ 10) :
    |((atan_approx ((j : ℚ) / k) : ℚ) : ℝ) - arctan (((j : ℚ) / k : ℚ) : ℝ)| ≤ 1 / 100 := by
  rcases eq_or_lt_of_le hjk with rfl | hlt
  · have hne : ((j : ℚ)) ≠ 0 := Nat.cast_ne_zero.2 (by omega)
    rw [div_self hne]
    exact E_one
  · exact E_le_of_checks _ (by positivity) (check_ratios j k hlt hk10)

/-- Polynomial accuracy at every integer ratio `p/q` with `|p| ≤ |q| ≤ 10`. -/
theorem E_int_ratio_le (p q : ℤ) (hpq : |p| ≤ |q|) (hq10 : |q| ≤ 10) (hq0 : q ≠ 0) :
    |((atan_approx ((p : ℚ) / q) : ℚ) : ℝ) - arctan (((p : ℚ) / q : ℚ) : ℝ)| ≤ 1 / 100 := by
  set j := p.natAbs with hj
  set k := q.natAbs with hk
  have hjk : j ≤ k := by
    have h1 : |p| = (j : ℤ) := Int.abs_eq_natAbs p
    have h2 : |q| = (k : ℤ) := Int.abs_eq_natAbs q
    rw [h1, h2] at hpq
    exact_mod_cast hpq
  have hk10n : k ≤ 10 := by
    have h2 : |q| = (k : ℤ) := Int.abs_eq_natAbs q
    rw [h2] at hq10
    exact_mod_cast hq10
  have hk1 : 1 ≤ k := by
    rcases Nat.eq_zero_or_pos k with h | h
    · exact absurd (Int.natAbs_eq_zero.1 h) hq0
    · exact h
  have key : (p : ℚ) / q = (j : ℚ) / k ∨ (p : ℚ) / q = -((j : ℚ) / k) := by
    rcases Int.natAbs_eq p with hp | hp <;> rcases Int.natAbs_eq q with hqe | hqe
    · left
      rw [hp, hqe, ← hj, ← hk]
      push_cast
      ring
    · right
      rw [hp, hqe, ← hj, ← hk, Int.cast_neg, div_neg]
      push_cast
      ring
    · right
      rw [hp, hqe, ← hj, ← hk, Int.cast_neg, neg_div]
      push_cast
      ring
    · left
      rw [hp, hqe, ← hj, ← hk, Int.cast_neg, Int.cast_neg, neg_div_neg_eq]
      push_cast
      ring
  rcases key with hkey | hkey
  · rw [hkey]
    exact E_nat_ratio j k hjk hk1 hk10n
  · rw [hkey, E_neg ((j : ℚ) / k)]
    exact E_nat_ratio j k hjk hk1 hk10n

/-- For every input off the `x = 0` line, the distance between the shared
`atan2_approx` body and the exact `atan2` equals the polynomial error at the
branch input `atan_input`: all quadrant adjustments cancel exactly. -/
theorem core_err (y x : ℚ) (hx : x ≠ 0) :
    |atan2_core y x - atan2R (y : ℝ) (x : ℝ)|
      = |((atan_approx (atan2_input y x) : ℚ) : ℝ)
          - arctan ((atan2_input y x : ℚ) : ℝ)| := by
  by_cases hswap : |x| < |y|
  · -- swap branch: the input is x / y and y ≠ 0
    have hy0 : y ≠ 0 := by
      intro h
      rw [h, abs_zero] at hswap
      exact absurd hswap (not_lt.2 (abs_nonneg x))
    have htval : atan2_input y x = x / y := by
      unfold atan2_input
      rw [if_pos hswap]
    have hti : ((atan2_input y x : ℚ) : ℝ) = (x : ℝ) / (y : ℝ) := by
      rw [htval]
      push_cast
      rfl
    have hinv : (y : ℝ) / (x : ℝ) = (((atan2_input y x : ℚ) : ℝ))⁻¹ := by
      rw [hti, inv_div]
    rcases lt_or_gt_of_ne hx with hxneg | hxpos <;>
      rcases lt_or_gt_of_ne hy0 with hyneg | hypos
    · -- x < 0, y < 0: input positive, quadrant shift -pi on both sides
      have ht0 : (0 : ℚ) ≤ atan2_input y x := by
        rw [htval]
        exact le_of_lt (div_pos_of_neg_of_neg hxneg hyneg)
      have htR : (0 : ℝ) < ((atan2_input y x : ℚ) : ℝ) := by
        rw [hti]
        exact div_pos_of_neg_of_neg (by exact_mod_cast hxneg) (by exact_mod_cast hyneg)
      have hcore : atan2_core y x
          = ((π / 2 : ℝ) - ((atan_approx (atan2_input y x) : ℚ) : ℝ)) + -π := by
        unfold atan2_core atan2_res
        rw [if_neg (not_le.2 hxneg), if_pos hswap, if_pos ht0, if_neg (not_le.2 hyneg)]
      have hexact : atan2R (y : ℝ) (x : ℝ)
          = arctan ((((atan2_input y x : ℚ) : ℝ))⁻¹) - π := by
        unfold atan2R
        rw [if_neg (by exact_mod_cast not_lt.2 (le_of_lt hxneg)),
          if_pos (by exact_mod_cast hxneg : (x : ℝ) < 0),
          if_neg (by exact_mod_cast not_le.2 hyneg), hinv]
      rw [hcore, hexact, Real.arctan_inv_of_pos htR]
      rw [show (π / 2 : ℝ) - ((atan_approx (atan2_input y x) : ℚ) : ℝ) + -π
          - (π / 2 - arctan ((atan2_input y x : ℚ) : ℝ) - π)
          = -(((atan_approx (atan2_input y x) : ℚ) : ℝ)
              - arctan ((atan2_input y x : ℚ) : ℝ)) from by ring]
      exact abs_neg _
    · -- x < 0, y > 0: input negative, quadrant shift +pi on both sides
      have ht0 : ¬ (0 : ℚ) ≤ atan2_input y x := by
        rw [htval]
        exact not_le.2 (div_neg_of_neg_of_pos hxneg hypos)
      have htR : ((atan2_input y x : ℚ) : ℝ) < 0 := by
        rw [hti]
        exact div_neg_of_neg_of_pos (by exact_mod_cast hxneg) (by exact_mod_cast hypos)
      have hcore : atan2_core y x
          = (-(π / 2 : ℝ) - ((atan_approx (atan2_input y x) : ℚ) : ℝ)) + π := by
        unfold atan2_core atan2_res
        rw [if_neg (not_le.2 hxneg), if_pos hswap, if_neg ht0, if_pos (le_of_lt hypos)]
      have hexact : atan2R (y : ℝ) (x : ℝ)
          = arctan ((((atan2_input y x : ℚ) : ℝ))⁻¹) + π := by
        unfold atan2R
        rw [if_neg (by exact_mod_cast not_lt.2 (le_of_lt hxneg)),
          if_pos (by exact_mod_cast hxneg : (x : ℝ) < 0),
          if_pos (by exact_mod_cast le_of_lt hypos : (0 : ℝ) ≤ (y : ℝ)), hinv]
      rw [hcore, hexact, Real.arctan_inv_of_neg htR]
      rw [show -(π / 2 : ℝ) - ((atan_approx (atan2_input y x) : ℚ) : ℝ) + π
          - (-(π / 2) - arctan ((atan2_input y x : ℚ) : ℝ) + π)
          = -(((atan_approx (atan2_input y x) : ℚ) : ℝ)
              - arctan ((atan2_input y x : ℚ) : ℝ)) from by ring]
      exact abs_neg _
    · -- x > 0, y < 0: input negative, no quadrant shift
      have ht0 : ¬ (0 : ℚ) ≤ atan2_input y x := by
        rw [htval]
        exact not_le.2 (div_neg_of_pos_of_neg hxpos hyneg)
      have htR : ((atan2_input y x : ℚ) : ℝ) < 0 := by
        rw [hti]
        exact div_neg_of_pos_of_neg (by exact_mod_cast hxpos) (by exact_mod_cast hyneg)
      have hcore : atan2_core y x
          = -(π / 2 : ℝ) - ((atan_approx (atan2_input y x) : ℚ) : ℝ) := by
        unfold atan2_core atan2_res
        rw [if_pos (le_of_lt hxpos), if_pos hswap, if_neg ht0]
      have hexact : atan2R (y : ℝ) (x : ℝ)
          = arctan ((((atan2_input y x : ℚ) : ℝ))⁻¹) := by
        unfold atan2R
        rw [if_pos (by exact_mod_cast hxpos : (0 : ℝ) < (x : ℝ)), hinv]
      rw [hcore, hexact, Real.arctan_inv_of_neg htR]
      rw [show -(π / 2 : ℝ) - ((atan_approx (atan2_input y x) : ℚ) : ℝ)
          - (-(π / 2) - arctan ((atan2_input y x : ℚ) : ℝ))
          = -(((atan_approx (atan2_input y x) : ℚ) : ℝ)
              - arctan ((atan2_input y x : ℚ) : ℝ)) from by ring]
      exact abs_neg _
    · -- x > 0, y > 0: input positive, no quadrant shift
      have ht0 : (0 : ℚ) ≤ atan2_input y x := by
        rw [htval]
        exact le_of_lt (div_pos hxpos hypos)
      have htR : (0 : ℝ) < ((atan2_input y x : ℚ) : ℝ) := by
        rw [hti]
        exact div_pos (by exact_mod_cast hxpos) (by exact_mod_cast hypos)
      have hcore : atan2_core y x
          = (π / 2 : ℝ) - ((atan_approx (atan2_input y x) : ℚ) : ℝ) := by
        unfold atan2_core atan2_res
        rw [if_pos (le_of_lt hxpos), if_pos hswap, if_pos ht0]
      have hexact : atan2R (y : ℝ) (x : ℝ)
          = arctan ((((atan2_input y x : ℚ) : ℝ))⁻¹) := by
        unfold atan2R
        rw [if_pos (by exact_mod_cast hxpos : (0 : ℝ) < (x : ℝ)), hinv]
      rw [hcore, hexact, Real.arctan_inv_of_pos htR]
      rw [show (π / 2 : ℝ) - ((atan_approx (atan2_input y x) : ℚ) : ℝ)
          - (π / 2 - arctan ((atan2_input y x : ℚ) : ℝ))
          = -(((atan_approx (atan2_input y x) : ℚ) : ℝ)
              - arctan ((atan2_input y x : ℚ) : ℝ)) from by ring]
      exact abs_neg _
  · -- no swap: the input is y / x and the quadrant shifts agree exactly
    have htval : atan2_input y x = y / x := by
      unfold atan2_input
      rw [if_neg hswap]
    have hti : ((atan2_input y x : ℚ) : ℝ) = (y : ℝ) / (x : ℝ) := by
      rw [htval]
      push_cast
      rfl
    rcases lt_or_gt_of_ne hx with hxneg | hxpos
    · by_cases hy0 : 0 ≤ y
      · have hcore : atan2_core y x
            = ((atan_approx (atan2_input y x) : ℚ) : ℝ) + π := by
          unfold atan2_core atan2_res
          rw [if_neg (not_le.2 hxneg), if_neg hswap, if_pos hy0]
        have hexact : atan2R (y : ℝ) (x : ℝ)
            = arctan ((atan2_input y x : ℚ) : ℝ) + π := by
          unfold atan2R
          rw [if_neg (by exact_mod_cast not_lt.2 (le_of_lt hxneg)),
            if_pos (by exact_mod_cast hxneg : (x : ℝ) < 0),
            if_pos (by exact_mod_cast hy0 : (0 : ℝ) ≤ (y : ℝ)), hti]
        rw [hcore, hexact]
        congr 1
        ring
      · have hcore : atan2_core y x
            = ((atan_approx (atan2_input y x) : ℚ) : ℝ) + -π := by
          unfold atan2_core atan2_res
          rw [if_neg (not_le.2 hxneg), if_neg hswap, if_neg hy0]
        have hexact : atan2R (y : ℝ) (x : ℝ)
            = arctan ((atan2_input y x : ℚ) : ℝ) - π := by
          unfold atan2R
          rw [if_neg (by exact_mod_cast not_lt.2 (le_of_lt hxneg)),
            if_pos (by exact_mod_cast hxneg : (x : ℝ) < 0),
            if_neg (by exact_mod_cast hy0 : ¬ (0 : ℝ) ≤ (y : ℝ)), hti]
        rw [hcore, hexact]
        congr 1
        ring
    · have hcore : atan2_core y x = ((atan_approx (atan2_input y x) : ℚ) : ℝ) := by
        unfold atan2_core atan2_res
        rw [if_pos (le_of_lt hxpos), if_neg hswap]
      have hexact : atan2R (y : ℝ) (x : ℝ) = arctan ((atan2_input y x : ℚ) : ℝ) := by
        unfold atan2R
        rw [if_pos (by exact_mod_cast hxpos : (0 : ℝ) < (x : ℝ)), hti]
      rw [hcore, hexact]

theorem api_eq_core (y x : ℚ) (hx : x ≠ 0) : atan2_approx_api y x = atan2_core y x := by
  unfold atan2_approx_api
  rw [if_neg (fun h => hx h.1)]

theorem gui_eq_core (y x : ℚ) (hx : x ≠ 0) : atan2_approx_gui y x = atan2_core y x := by
  unfold atan2_approx_gui
  rw [if_neg hx]

/-- On the whole line `x = 0, y ≠ 0` the shared `atan2_approx` body returns
`+pi/2`, regardless of the sign of `y`. -/
theorem core_at_x_zero (y : ℚ) (hy : y ≠ 0) : atan2_core y 0 = π / 2 := by
  have hswap : |(0 : ℚ)| < |y| := by
    rw [abs_zero]
    exact abs_pos.2 hy
  have ht : atan2_input y 0 = 0 := by
    unfold atan2_input
    rw [if_pos hswap, zero_div]
  unfold atan2_core atan2_res
  rw [if_pos (le_refl (0 : ℚ)), if_pos hswap, ht, if_pos (le_refl (0 : ℚ))]
  rw [show atan_approx 0 = 0 from by unfold atan_approx; ring]
  norm_num

theorem atan2R_x_zero (v : ℝ) :
    atan2R v 0 = if 0 < v then π / 2 else if v < 0 then -(π / 2) else 0 := by
  unfold atan2R
  rw [if_neg (lt_irrefl 0), if_neg (lt_irrefl 0)]

/-- C8, counterexample: at the grid point `(y, x) = (-1, 0)` the api variant
of `atan2_approx` (src/cpp/cubemap.cpp) returns `+pi/2` while the exact
`atan2` is `-pi/2`: the error is `pi`, far beyond 0.01 radian. -/
theorem C8_api_failure :
    ¬ (|atan2_approx_api (-1) 0 - atan2R ((-1 : ℚ) : ℝ) ((0 : ℚ) : ℝ)| ≤ 1 / 100) := by
  have h1 : atan2_approx_api (-1) 0 = π / 2 := by
    unfold atan2_approx_api
    rw [if_neg (by norm_num : ¬((0 : ℚ) = 0 ∧ (-1 : ℚ) = 0))]
    exact core_at_x_zero (-1) (by norm_num)
  have h2 : atan2R ((-1 : ℚ) : ℝ) ((0 : ℚ) : ℝ) = -(π / 2) := by
    rw [show ((0 : ℚ) : ℝ) = 0 from by norm_num, atan2R_x_zero]
    rw [if_neg (by norm_num : ¬(0 : ℝ) < ((-1 : ℚ) : ℝ)),
      if_pos (by norm_num : ((-1 : ℚ) : ℝ) < 0)]
  rw [h1, h2, show (π / 2 : ℝ) - -(π / 2) = π from by ring, abs_of_pos pi_pos]
  intro hcontra
  have hpi := pi_gt_three
  linarith

/-- C8, amended: both `atan2_approx` variants return exactly 0 at `(0, 0)`;
on the grid `{k/10 : |k| ≤ 10}²` the gui variant always agrees with the
exact `atan2` to within 0.01 radian, and the api variant does so everywhere
except on the half-line `x = 0, y < 0` (where it is off by `pi`). -/
theorem C8_atan2_grid (jy jx : ℤ) (hy10 : |jy| ≤ 10) (hx10 : |jx| ≤ 10) :
    atan2_approx_api 0 0 = 0 ∧
    atan2_approx_gui 0 0 = 0 ∧
    |atan2_approx_gui ((jy : ℚ) / 10) ((jx : ℚ) / 10)
        - atan2R (((jy : ℚ) / 10 : ℚ) : ℝ) (((jx : ℚ) / 10 : ℚ) : ℝ)| ≤ 1 / 100 ∧
    (¬(jx = 0 ∧ jy < 0) →
      |atan2_approx_api ((jy : ℚ) / 10) ((jx : ℚ) / 10)
          - atan2R (((jy : ℚ) / 10 : ℚ) : ℝ) (((jx : ℚ) / 10 : ℚ) : ℝ)| ≤ 1 / 100) := by
  have hcore : jx ≠ 0 →
      |atan2_core ((jy : ℚ) / 10) ((jx : ℚ) / 10)
        - atan2R (((jy : ℚ) / 10 : ℚ) : ℝ) (((jx : ℚ) / 10 : ℚ) : ℝ)| ≤ 1 / 100 := by
    intro hjx
    have hxq : ((jx : ℚ) / 10) ≠ 0 :=
      div_ne_zero (by exact_mod_cast hjx) (by norm_num)
    rw [core_err _ _ hxq]
    by_cases hswap : |(jx : ℚ) / 10| < |(jy : ℚ) / 10|
    · have hjy : jy ≠ 0 := by
        intro h
        rw [h] at hswap
        norm_num at hswap
        exact absurd hswap (not_lt.2 (abs_nonneg _))
      have hyq : (jy : ℚ) ≠ 0 := by exact_mod_cast hjy
      have ht : atan2_input ((jy : ℚ) / 10) ((jx : ℚ) / 10) = (jx : ℚ) / (jy : ℚ) := by
        unfold atan2_input
        rw [if_pos hswap]
        field_simp
      rw [ht]
      apply E_int_ratio_le jx jy ?_ hy10 hjy
      rw [abs_div, abs_div, show |(10 : ℚ)| = 10 from by norm_num] at hswap
      have h2 : |(jx : ℚ)| < |(jy : ℚ)| := by linarith
      have h3 : ((|jx| : ℤ) : ℚ) < ((|jy| : ℤ) : ℚ) := by
        rw [Int.cast_abs, Int.cast_abs]
        exact h2
      exact le_of_lt (by exact_mod_cast h3)
    · have ht : atan2_input ((jy : ℚ) / 10) ((jx : ℚ) / 10) = (jy : ℚ) / (jx : ℚ) := by
        unfold atan2_input
        rw [if_neg hswap]
        field_simp
      rw [ht]
      apply E_int_ratio_le jy jx ?_ hx10 hjx
      have h := not_lt.1 hswap
      rw [abs_div, abs_div, show |(10 : ℚ)| = 10 from by norm_num] at h
      have h2 : |(jy : ℚ)| ≤ |(jx : ℚ)| := by linarith
      have h3 : ((|jy| : ℤ) : ℚ) ≤ ((|jx| : ℤ) : ℚ) := by
        rw [Int.cast_abs, Int.cast_abs]
        exact h2
      exact_mod_cast h3
  refine ⟨?_, ?_, ?_, ?_⟩
  · unfold atan2_approx_api
    rw [if_pos ⟨rfl, rfl⟩]
  · unfold atan2_approx_gui
    rw [if_pos rfl, if_pos rfl]
  · by_cases hjx : jx = 0
    · subst hjx
      rw [show ((0 : ℤ) : ℚ) / 10 = 0 from by norm_num, Rat.cast_zero]
      rcases lt_trichotomy jy 0 with hy | hy | hy
      · have hyq : ((jy : ℚ) / 10) < 0 :=
          div_neg_of_neg_of_pos (by exact_mod_cast hy) (by norm_num)
        have hgui : atan2_approx_gui ((jy : ℚ) / 10) 0 = -(π / 2) := by
          unfold atan2_approx_gui
          rw [if_pos rfl, if_neg (ne_of_lt hyq), if_pos hyq]
        have hex : atan2R (((jy : ℚ) / 10 : ℚ) : ℝ) 0 = -(π / 2) := by
          rw [atan2R_x_zero]
          rw [if_neg (not_lt.2 (le_of_lt (by exact_mod_cast hyq))),
            if_pos (by exact_mod_cast hyq : (((jy : ℚ) / 10 : ℚ) : ℝ) < 0)]
        rw [hgui, hex, sub_self, abs_zero]
        norm_num
      · subst hy
        rw [show ((0 : ℤ) : ℚ) / 10 = 0 from by norm_num, Rat.cast_zero]
        have hgui : atan2_approx_gui 0 0 = 0 := by
          unfold atan2_approx_gui
          rw [if_pos rfl, if_pos rfl]
        have hex : atan2R (0 : ℝ) 0 = 0 := by
          rw [atan2R_x_zero, if_neg (lt_irrefl 0), if_neg (lt_irrefl 0)]
        rw [hgui, hex, sub_self, abs_zero]
        norm_num
      · have hyq : (0 : ℚ) < ((jy : ℚ) / 10) :=
          div_pos (by exact_mod_cast hy) (by norm_num)
        have hgui : atan2_approx_gui ((jy : ℚ) / 10) 0 = π / 2 := by
          unfold atan2_approx_gui
          rw [if_pos rfl, if_neg (ne_of_gt hyq), if_neg (not_lt.2 (le_of_lt hyq))]
        have hex : atan2R (((jy : ℚ) / 10 : ℚ) : ℝ) 0 = π / 2 := by
          rw [atan2R_x_zero]
          rw [if_pos (by exact_mod_cast hyq : (0 : ℝ) < (((jy : ℚ) / 10 : ℚ) : ℝ))]
        rw [hgui, hex, sub_self, abs_zero]
        norm_num
    · rw [gui_eq_core _ _ (div_ne_zero (by exact_mod_cast hjx) (by norm_num))]
      exact hcore hjx
  · intro hnot
    by_cases hjx : jx = 0
    · subst hjx
      rw [show ((0 : ℤ) : ℚ) / 10 = 0 from by norm_num, Rat.cast_zero]
      rcases lt_trichotomy jy 0 with hy | hy | hy
      · exact absurd ⟨rfl, hy⟩ hnot
      · subst hy
        rw [show ((0 : ℤ) : ℚ) / 10 = 0 from by norm_num, Rat.cast_zero]
        have happi : atan2_approx_api 0 0 = 0 := by
          unfold atan2_approx_api
          rw [if_pos ⟨rfl, rfl⟩]
        have hex : atan2R (0 : ℝ) 0 = 0 := by
          rw [atan2R_x_zero, if_neg (lt_irrefl 0), if_neg (lt_irrefl 0)]
        rw [happi, hex, sub_self, abs_zero]
        norm_num
      · have hyq : (0 : ℚ) < ((jy : ℚ) / 10) :=
          div_pos (by exact_mod_cast hy) (by norm_num)
        have happi : atan2_approx_api ((jy : ℚ) / 10) 0 = π / 2 := by
          unfold atan2_approx_api
          rw [if_neg (by
            rintro ⟨-, h2⟩
            exact (ne_of_gt hyq) h2)]
          exact core_at_x_zero _ (ne_of_gt hyq)
        have hex : atan2R (((jy : ℚ) / 10 : ℚ) : ℝ) 0 = π / 2 := by
          rw [atan2R_x_zero]
          rw [if_pos (by exact_mod_cast hyq : (0 : ℝ) < (((jy : ℚ) / 10 : ℚ) : ℝ))]
        rw [happi, hex, sub_self, abs_zero]
        norm_num
    · rw [api_eq_core _ _ (div_ne_zero (by exact_mod_cast hjx) (by norm_num))]
      exact hcore hjx

/-- Witness for the amended C8 at the grid point `(y, x) = (7/10, -3/10)`. -/
theorem C8_atan2_grid_witness :
    (|(7 : ℤ)| ≤ 10 ∧ |(-3 : ℤ)| ≤ 10) ∧
    |atan2_approx_gui (((7 : ℤ) : ℚ) / 10) (((-3 : ℤ) : ℚ) / 10)
        - atan2R ((((7 : ℤ) : ℚ) / 10 : ℚ) : ℝ) ((((-3 : ℤ) : ℚ) / 10 : ℚ) : ℝ)| ≤ 1 / 100 := by
  exact ⟨⟨by decide, by decide⟩, (C8_atan2_grid 7 (-3) (by decide) (by decide)).2.2.1⟩

end StreetView
